import Mathlib

/-!
# DVB PSI/SI descriptor decoding (`ts/psi/descriptors.go`)

A shallow embedding of the descriptor parsers of package `psi`.

* A Go `byte` is a `Fin 256`; every arithmetic operation on bytes is carried
  out on natural numbers with the wrap-around written out (`% 256`).
* A Go `[]byte` is a `ByteSlice`: either `nil`, or a view made of the `len`
  visible bytes and of the bytes of the backing array that lie between `len`
  and `cap`.
* A run-time panic (index or slice bound out of range) is the result `none`.
  Every parser returns `Option (value × ok)`.
-/

namespace Psi

/-- A Go `byte`. -/
abbrev Byte := Fin 256

/-- A Go `[]byte`: the nil slice, or a view on a backing array. `elems` are the
bytes below `len`, `spare` the bytes of the backing array from `len` up to `cap`. -/
inductive ByteSlice where
  | nil : ByteSlice
  | view (elems spare : List Byte) : ByteSlice
  deriving DecidableEq, Repr

namespace ByteSlice

/-- The visible bytes of a slice, `s[0], ..., s[len(s)-1]`. -/
def toList : ByteSlice → List Byte
  | nil => []
  | view elems _ => elems

/-- The bytes of the backing array reachable from the slice, up to `cap(s)`. -/
def backing : ByteSlice → List Byte
  | nil => []
  | view elems spare => elems ++ spare

/-- Go `len(s)`. -/
def len (s : ByteSlice) : Nat := s.toList.length

/-- Go `cap(s)`. -/
def cap (s : ByteSlice) : Nat := s.backing.length

/-- Go `s == nil`. -/
def isNil : ByteSlice → Bool
  | nil => true
  | view _ _ => false

/-- Go index expression `s[i]`: panics unless `i < len(s)`. -/
def index (s : ByteSlice) (i : Nat) : Option Byte := s.toList[i]?

/-- Go slice expression `s[lo:hi]`: panics unless `lo ≤ hi ≤ cap(s)`; slicing the
nil slice gives the nil slice. -/
def slice (s : ByteSlice) (lo hi : Nat) : Option ByteSlice :=
  if lo ≤ hi ∧ hi ≤ s.cap then
    match s with
    | nil => some nil
    | view elems spare =>
      some (view (((elems ++ spare).take hi).drop lo) ((elems ++ spare).drop hi))
  else
    none

/-- Go slice expression `s[lo:]`, that is `s[lo:len(s)]`. -/
def sliceFrom (s : ByteSlice) (lo : Nat) : Option ByteSlice := s.slice lo s.len

/-- Go slice expression `s[:hi]`, that is `s[0:hi]`. -/
def sliceTo (s : ByteSlice) (hi : Nat) : Option ByteSlice := s.slice 0 hi

end ByteSlice

/-- Modelled from the spec: the `Descriptor` type of package `psi` is declared outside
`descriptors.go`; the spec describes it as an opaque capability with two operations,
the tag (an unsigned byte) and the payload bytes. -/
structure Descriptor where
  Tag : Byte
  Data : ByteSlice
  deriving DecidableEq, Repr

/-- Go `type ServiceType byte`. -/
abbrev ServiceType := Byte

/-- Go `struct ServiceDescriptor`. The field `Type` of the source is `Typ` here
(`Type` is a reserved word). -/
structure ServiceDescriptor where
  Typ : ServiceType
  ProviderName : ByteSlice
  ServiceName : ByteSlice
  deriving DecidableEq, Repr

/-- The zero value of `ServiceDescriptor`. -/
def ServiceDescriptor.zero : ServiceDescriptor :=
  { Typ := 0, ProviderName := ByteSlice.nil, ServiceName := ByteSlice.nil }

/-- Go `ParseServiceDescriptor`. The tag constant `ServiceTag` is declared outside
`descriptors.go` and is a parameter. `providerNameLen` and `serviceNameLen` are bytes,
so `providerNameLen+1` is computed modulo 256 in both places it occurs. -/
def ParseServiceDescriptor (ServiceTag : Byte) (d : Descriptor) :
    Option (ServiceDescriptor × Bool) :=
  let sd := ServiceDescriptor.zero
  if d.Tag ≠ ServiceTag then
    some (sd, false)
  else
    let data := d.Data
    if data.len < 2 then
      some (sd, false)
    else
      (data.index 0).bind fun b0 =>
      let sd := { sd with Typ := b0 }
      (data.index 1).bind fun providerNameLen =>
      (data.sliceFrom 2).bind fun data =>
      if data.len < (providerNameLen.val + 1) % 256 then
        some (sd, false)
      else
        (data.sliceTo providerNameLen.val).bind fun providerName =>
        let sd := { sd with ProviderName := providerName }
        (data.index providerNameLen.val).bind fun serviceNameLen =>
        (data.sliceFrom ((providerNameLen.val + 1) % 256)).bind fun data =>
        if data.len < serviceNameLen.val then
          some (sd, false)
        else
          (data.sliceTo serviceNameLen.val).bind fun serviceName =>
          let sd := { sd with ServiceName := serviceName }
          some (sd, true)

/-- Go `type NetworkNameDescriptor []byte`. -/
abbrev NetworkNameDescriptor := ByteSlice

/-- Go `ParseNetworkNameDescriptor`; `NetworkNameTag` is declared outside
`descriptors.go` and is a parameter. -/
def ParseNetworkNameDescriptor (NetworkNameTag : Byte) (d : Descriptor) :
    Option (NetworkNameDescriptor × Bool) :=
  let nnd : NetworkNameDescriptor := ByteSlice.nil
  if d.Tag ≠ NetworkNameTag then
    some (nnd, false)
  else
    let nnd := d.Data
    some (nnd, true)

/-- Go `type ServiceListDescriptor []byte`. -/
abbrev ServiceListDescriptor := ByteSlice

/-- Go `ParseServiceListDescriptor`; `ServiceListTag` is declared outside
`descriptors.go` and is a parameter. -/
def ParseServiceListDescriptor (ServiceListTag : Byte) (d : Descriptor) :
    Option (ServiceListDescriptor × Bool) :=
  let sld : ServiceListDescriptor := ByteSlice.nil
  if d.Tag ≠ ServiceListTag then
    some (sld, false)
  else
    let sld := d.Data
    some (sld, true)

/-- Modelled from the spec: `decodeU16` is a helper of package `psi` declared outside
`descriptors.go`; the spec describes it as fixed-width big-endian integer decoding.
It reads `b[0]` and `b[1]`. -/
def decodeU16 (b : ByteSlice) : Option Nat :=
  (b.index 0).bind fun b0 =>
  (b.index 1).bind fun b1 =>
  some (256 * b0.val + b1.val)

/-- Modelled from the spec: `decodeU24` is a helper of package `psi` declared outside
`descriptors.go`; the spec describes it as fixed-width big-endian integer decoding.
It reads `b[0]`, `b[1]` and `b[2]`. -/
def decodeU24 (b : ByteSlice) : Option Nat :=
  (b.index 0).bind fun b0 =>
  (b.index 1).bind fun b1 =>
  (b.index 2).bind fun b2 =>
  some (2 ^ 16 * b0.val + 2 ^ 8 * b1.val + b2.val)

/-- Modelled from the spec: `decodeU32` is a helper of package `psi` declared outside
`descriptors.go`; the spec describes it as fixed-width big-endian integer decoding.
It reads `b[0]` to `b[3]`. -/
def decodeU32 (b : ByteSlice) : Option Nat :=
  (b.index 0).bind fun b0 =>
  (b.index 1).bind fun b1 =>
  (b.index 2).bind fun b2 =>
  (b.index 3).bind fun b3 =>
  some (2 ^ 24 * b0.val + 2 ^ 16 * b1.val + 2 ^ 8 * b2.val + b3.val)

/-- Go `ServiceListDescriptor.Pop`: the result is `(sid, typ, rd)`. -/
def ServiceListDescriptor.Pop (d : ServiceListDescriptor) :
    Option (Nat × ServiceType × ServiceListDescriptor) :=
  if d.len < 3 then
    some (0, 0, ByteSlice.nil)
  else
    (d.slice 0 2).bind fun d02 =>
    (decodeU16 d02).bind fun sid =>
    (d.index 2).bind fun typ =>
    (d.sliceFrom 3).bind fun rd =>
    some (sid, typ, rd)

/-- The constants of the library `github.com/ziutek/dvb` that the terrestrial parser and
its specification name. The library is not part of `descriptors.go`; the values are
parameters. `dvb.Modulation`, `dvb.Hierarchy`, `dvb.CodeRate`, `dvb.Guard` and
`dvb.TxMode` are integer types and are natural numbers here. -/
structure DvbConsts where
  QPSK : Nat
  QAM16 : Nat
  QAM64 : Nat
  Hierarchy4 : Nat
  FECNone : Nat
  FEC12 : Nat
  FEC23 : Nat
  FEC34 : Nat
  FEC56 : Nat
  FEC78 : Nat
  TxMode8k : Nat
  deriving DecidableEq, Repr

/-- Go `struct TerrestrialDeliverySystemDescriptor`. -/
structure TerrestrialDeliverySystemDescriptor where
  Freq : Nat
  Bandwidth : Nat
  Constellation : Nat
  Hierarchy : Nat
  CodeRateHP : Nat
  CodeRateLP : Nat
  Guard : Nat
  TxMode : Nat
  OtherFreq : Bool
  deriving DecidableEq, Repr

/-- The zero value of `TerrestrialDeliverySystemDescriptor`. -/
def TerrestrialDeliverySystemDescriptor.zero : TerrestrialDeliverySystemDescriptor :=
  { Freq := 0, Bandwidth := 0, Constellation := 0, Hierarchy := 0, CodeRateHP := 0,
    CodeRateLP := 0, Guard := 0, TxMode := 0, OtherFreq := false }

/-- Go `codeRate`; the argument is a byte value and `cr + 1` is byte arithmetic. -/
def codeRate (c : DvbConsts) (cr : Nat) : Nat :=
  if cr < 3 then
    (cr + 1) % 256
  else
    match cr with
    | 3 => c.FEC56
    | 4 => c.FEC78
    | _ => c.FECNone

/-- Lines 200 to 219 of `ParseTerrestrialDeliverySystemDescriptor`: hierarchy, the two
code rates, guard interval, transmission mode and the other-frequency flag. -/
def parseTerrestrialTail (c : DvbConsts) (data : ByteSlice)
    (tds : TerrestrialDeliverySystemDescriptor) :
    Option (TerrestrialDeliverySystemDescriptor × Bool) :=
  (data.index 5).bind fun b5 =>
  let tds := { tds with Hierarchy := (b5.val >>> 3) &&& 0x07 }
  if tds.Hierarchy > c.Hierarchy4 then
    some (tds, false)
  else
    let tds := { tds with CodeRateHP := codeRate c (b5.val &&& 0x07) }
    if tds.CodeRateHP = c.FECNone then
      some (tds, false)
    else
      (data.index 6).bind fun b6 =>
      let tds := { tds with CodeRateLP := codeRate c (b6.val >>> 5) }
      if tds.CodeRateLP = c.FECNone then
        some (tds, false)
      else
        let tds := { tds with Guard := (b6.val >>> 3) &&& 0x03 }
        let tds := { tds with TxMode := (b6.val >>> 1) &&& 0x3 }
        if tds.TxMode > c.TxMode8k then
          some (tds, false)
        else
          let tds := { tds with OtherFreq := decide ((b6.val &&& 0x01) ≠ 0) }
          some (tds, true)

/-- Lines 190 to 199 of `ParseTerrestrialDeliverySystemDescriptor`: the constellation
switch, followed by the rest of the function. -/
def parseTerrestrialConstellation (c : DvbConsts) (data : ByteSlice)
    (tds : TerrestrialDeliverySystemDescriptor) :
    Option (TerrestrialDeliverySystemDescriptor × Bool) :=
  (data.index 5).bind fun b5 =>
  match b5.val >>> 6 with
  | 0 => parseTerrestrialTail c data { tds with Constellation := c.QPSK }
  | 1 => parseTerrestrialTail c data { tds with Constellation := c.QAM16 }
  | 2 => parseTerrestrialTail c data { tds with Constellation := c.QAM64 }
  | _ => some (tds, false)

/-- Go `ParseTerrestrialDeliverySystemDescriptor`; `TerrestrialDeliverySystemTag` is
declared outside `descriptors.go` and is a parameter. `Freq` is a `uint64` product. -/
def ParseTerrestrialDeliverySystemDescriptor (c : DvbConsts)
    (TerrestrialDeliverySystemTag : Byte) (d : Descriptor) :
    Option (TerrestrialDeliverySystemDescriptor × Bool) :=
  let tds := TerrestrialDeliverySystemDescriptor.zero
  if d.Tag ≠ TerrestrialDeliverySystemTag then
    some (tds, false)
  else
    let data := d.Data
    if data.len < 11 then
      some (tds, false)
    else
      (data.slice 0 4).bind fun d04 =>
      (decodeU32 d04).bind fun u =>
      let tds := { tds with Freq := (u * 10) % 2 ^ 64 }
      (data.index 4).bind fun b4 =>
      match b4.val >>> 5 with
      | 0 => parseTerrestrialConstellation c data { tds with Bandwidth := 8000000 }
      | 1 => parseTerrestrialConstellation c data { tds with Bandwidth := 7000000 }
      | _ => some (tds, false)

/-- Go `struct CADescriptor`; `Sys` has type `CAS`, a `uint16`, and `Pid` is a `uint16`. -/
structure CADescriptor where
  Sys : Nat
  Pid : Nat
  deriving DecidableEq, Repr

/-- The zero value of `CADescriptor`. -/
def CADescriptor.zero : CADescriptor := { Sys := 0, Pid := 0 }

/-- Go `ParseCADescriptor`; `CATag` is declared outside `descriptors.go` and is a
parameter. -/
def ParseCADescriptor (CATag : Byte) (d : Descriptor) : Option (CADescriptor × Bool) :=
  let cad := CADescriptor.zero
  if d.Tag ≠ CATag then
    some (cad, false)
  else
    let data := d.Data
    if data.len < 4 then
      some (cad, false)
    else
      (data.slice 0 2).bind fun d02 =>
      (decodeU16 d02).bind fun sys =>
      let cad := { cad with Sys := sys }
      (data.slice 2 4).bind fun d24 =>
      (decodeU16 d24).bind fun pid =>
      let cad := { cad with Pid := pid &&& 0x1fff }
      some (cad, true)

/-- Go `type ISO639LangDescriptor []byte`. -/
abbrev ISO639LangDescriptor := ByteSlice

/-- Go `ParseISO639LangDescriptor`; `ISO639LangTag` is declared outside
`descriptors.go` and is a parameter. -/
def ParseISO639LangDescriptor (ISO639LangTag : Byte) (d : Descriptor) :
    Option (ISO639LangDescriptor × Bool) :=
  let ld : ISO639LangDescriptor := ByteSlice.nil
  if d.Tag ≠ ISO639LangTag then
    some (ld, false)
  else
    some (d.Data, true)

/-- Go constant `AdvancedCodecHDNVODReferenceService`, the largest named service type. -/
def AdvancedCodecHDNVODReferenceService : ServiceType := 0x1b

/-- Go `stn`, the table of service type names. -/
def stn : List String :=
  [ "digital television",
    "digital radio sound",
    "teletext",
    "NVOD reference",
    "NVOD time-shifted",
    "mosaic",
    "FM radio",
    "DVB SRM",
    "reserved",
    "advanced codec digital radio sound",
    "advanced codec mosaic",
    "data broadcast",
    "reserved",
    "RCS Map",
    "RCS FLS",
    "DVB MHP",
    "MPEG-2 HD digital television",
    "reserved",
    "reserved",
    "reserved",
    "reserved",
    "advanced codec SD digital television",
    "advanced codec SD NVOD time-shifted",
    "advanced codec SD NVOD reference",
    "advanced codec HD digital television",
    "advanced codec HD NVOD time-shifted",
    "advanced codec HD NVOD reference" ]

/-- Go `ServiceType.String`; `t-1` is byte arithmetic and `stn[t-1]` panics when the
index is out of range. -/
def ServiceType.String (t : ServiceType) : Option String :=
  if t.val = 0 ∨ t.val = 0xff ∨
      (t.val > AdvancedCodecHDNVODReferenceService.val ∧ t.val ≤ 0x7F) then
    some "reserved"
  else if t.val > 0x7F then
    some "user defined"
  else
    stn[(t.val + 256 - 1) % 256]?

/-- Go `type AudioType byte`. -/
abbrev AudioType := Byte

/-- Go constant `VisualImpairedCommentaryAudio`, the fourth value of the `iota` block. -/
def VisualImpairedCommentaryAudio : AudioType := 3

/-- Go `atn`, the table of audio type names. -/
def atn : List String :=
  [ "undefined",
    "clean effects",
    "hearing impaired",
    "visual impaired commentary" ]

/-- Go `AudioType.String`; `atn[t]` panics when the index is out of range. -/
def AudioType.String (t : AudioType) : Option String :=
  if t.val > VisualImpairedCommentaryAudio.val then
    some "reserved"
  else
    atn[t.val]?

/-- Go `ISO639LangDescriptor.Pop`: the result is `(lc, at, rd)`; `lc` is a
`uint32`-based `ISO639LangCode`. -/
def ISO639LangDescriptor.Pop (d : ISO639LangDescriptor) :
    Option (Nat × AudioType × ISO639LangDescriptor) :=
  if d.len < 4 then
    some (0, 0, ByteSlice.nil)
  else
    (d.slice 0 3).bind fun d03 =>
    (decodeU24 d03).bind fun lc =>
    (d.index 3).bind fun audioType =>
    (d.sliceFrom 4).bind fun rd =>
    some (lc, audioType, rd)

/-! ## Definitions used to state the properties -/

/-- The byte `s[i]` as a number, and 0 when `i` is not below `len(s)`. -/
def ByteSlice.byteAt (s : ByteSlice) (i : Nat) : Nat := (s.toList.getD i 0).val

/-- The big-endian 16-bit number made of the bytes `i` and `i+1` of a payload. -/
def bigEndian16 (s : ByteSlice) (i : Nat) : Nat := 256 * s.byteAt i + s.byteAt (i + 1)

/-- The big-endian 32-bit number made of the first four bytes of a payload. -/
def bigEndian32 (s : ByteSlice) : Nat :=
  2 ^ 24 * s.byteAt 0 + 2 ^ 16 * s.byteAt 1 + 2 ^ 8 * s.byteAt 2 + s.byteAt 3

/-- The code rate table of the terrestrial delivery layout: codes 0 to 4 stand for
FEC 1/2, 2/3, 3/4, 5/6 and 7/8, the codes 5, 6 and 7 stand for nothing. -/
def fecOfCode (c : DvbConsts) : Nat → Option Nat
  | 0 => some c.FEC12
  | 1 => some c.FEC23
  | 2 => some c.FEC34
  | 3 => some c.FEC56
  | 4 => some c.FEC78
  | _ => none

/-- The terrestrial delivery record in which the first `k` fields, in the order
`Freq`, `Bandwidth`, `Constellation`, `Hierarchy`, `CodeRateHP`, `CodeRateLP`, `Guard`,
`TxMode`, hold the value decoded from the payload and every other field is zero. The
bit fields are written with division and remainder. -/
def terrestrialPrefix (c : DvbConsts) (data : ByteSlice) (k : Nat) :
    TerrestrialDeliverySystemDescriptor :=
  { Freq := if 1 ≤ k then 10 * bigEndian32 data else 0
    Bandwidth := if 2 ≤ k then (if data.byteAt 4 / 32 = 0 then 8000000 else 7000000) else 0
    Constellation :=
      if 3 ≤ k then
        (if data.byteAt 5 / 64 = 0 then c.QPSK
         else if data.byteAt 5 / 64 = 1 then c.QAM16 else c.QAM64)
      else 0
    Hierarchy := if 4 ≤ k then data.byteAt 5 / 8 % 8 else 0
    CodeRateHP := if 5 ≤ k then codeRate c (data.byteAt 5 % 8) else 0
    CodeRateLP := if 6 ≤ k then codeRate c (data.byteAt 6 / 32) else 0
    Guard := if 7 ≤ k then data.byteAt 6 / 8 % 4 else 0
    TxMode := if 8 ≤ k then data.byteAt 6 / 2 % 4 else 0
    OtherFreq := false }

/-- The decision table of the terrestrial delivery layout for a payload of at least 11
bytes presented with the right tag: the checks in payload order, each failure returning
the fields decoded so far, and the complete record on success. -/
def terrestrialTable (c : DvbConsts) (data : ByteSlice) :
    TerrestrialDeliverySystemDescriptor × Bool :=
  if 2 ≤ data.byteAt 4 / 32 then (terrestrialPrefix c data 1, false)
  else if data.byteAt 5 / 64 = 3 then (terrestrialPrefix c data 2, false)
  else if data.byteAt 5 / 8 % 8 > c.Hierarchy4 then (terrestrialPrefix c data 4, false)
  else if codeRate c (data.byteAt 5 % 8) = c.FECNone then (terrestrialPrefix c data 5, false)
  else if codeRate c (data.byteAt 6 / 32) = c.FECNone then (terrestrialPrefix c data 6, false)
  else if data.byteAt 6 / 2 % 4 > c.TxMode8k then (terrestrialPrefix c data 8, false)
  else ({ terrestrialPrefix c data 8 with OtherFreq := decide (data.byteAt 6 % 2 ≠ 0) }, true)

/-- The fields of a terrestrial delivery payload other than the hierarchy code pass the
checks of the parser: bandwidth code 0 or 1, constellation code 0, 1 or 2, both code
rates different from `dvb.FECNone`, transmission mode not above `dvb.TxMode8k`. -/
def otherFieldsValid (c : DvbConsts) (data : ByteSlice) : Prop :=
  data.byteAt 4 / 32 ≤ 1 ∧ data.byteAt 5 / 64 ≤ 2 ∧
  codeRate c (data.byteAt 5 % 8) ≠ c.FECNone ∧
  codeRate c (data.byteAt 6 / 32) ≠ c.FECNone ∧
  data.byteAt 6 / 2 % 4 ≤ c.TxMode8k

instance (c : DvbConsts) (data : ByteSlice) : Decidable (otherFieldsValid c data) := by
  unfold otherFieldsValid
  infer_instance

/-- The numbering of the Linux DVB API (`linux/dvb/frontend.h`), to which the `dvb`
library is a binding: `QPSK`, `QAM_16`, `QAM_64` are 0, 1, 3; `HIERARCHY_4` is 3;
`FEC_NONE`, `FEC_1_2`, `FEC_2_3`, `FEC_3_4`, `FEC_5_6`, `FEC_7_8` are 0, 1, 2, 3, 5, 7;
`TRANSMISSION_MODE_8K` is 1. The library is not part of `descriptors.go`: the general
statements below hold for every value of the constants, and this numbering only
instantiates them. -/
def linuxConsts : DvbConsts :=
  { QPSK := 0, QAM16 := 1, QAM64 := 3, Hierarchy4 := 3, FECNone := 0, FEC12 := 1,
    FEC23 := 2, FEC34 := 3, FEC56 := 5, FEC78 := 7, TxMode8k := 1 }

/-- The fields of a terrestrial delivery payload other than the transmission mode pass the
checks of the parser: bandwidth code 0 or 1, constellation code 0, 1 or 2, hierarchy code
not above `dvb.Hierarchy4`, both code rates different from `dvb.FECNone`. The guard
interval code is not mentioned: the parser has no check on it. -/
def fieldsBeforeTxModeValid (c : DvbConsts) (data : ByteSlice) : Prop :=
  data.byteAt 4 / 32 ≤ 1 ∧ data.byteAt 5 / 64 ≤ 2 ∧
  data.byteAt 5 / 8 % 8 ≤ c.Hierarchy4 ∧
  codeRate c (data.byteAt 5 % 8) ≠ c.FECNone ∧
  codeRate c (data.byteAt 6 / 32) ≠ c.FECNone

instance (c : DvbConsts) (data : ByteSlice) : Decidable (fieldsBeforeTxModeValid c data) := by
  unfold fieldsBeforeTxModeValid
  infer_instance

/-- Modelled from the spec: the caller loop over a service list is not part of
`descriptors.go`; the spec leaves it to the caller as a loop that pops until popping
fails. Each round pops the current view, stops when the remainder is nil, and otherwise
records `(sid, typ)` and goes on with the remainder. The result is the list of records
and the view on which `Pop` failed. `fuel` bounds the number of calls of `Pop`; the result
is `none` when `Pop` panics or the fuel runs out. -/
def serviceListLoop : Nat → ServiceListDescriptor →
    Option (List (Nat × ServiceType) × ServiceListDescriptor)
  | 0, _ => none
  | fuel + 1, d =>
    (ServiceListDescriptor.Pop d).bind fun r =>
      if r.2.2.isNil then
        some ([], d)
      else
        (serviceListLoop fuel r.2.2).bind fun t => some ((r.1, r.2.1) :: t.1, t.2)

/-- Modelled from the spec: the caller loop over an ISO-639 language list, of the same
shape as `serviceListLoop`, with the records `(lc, at)`. -/
def iso639LangLoop : Nat → ISO639LangDescriptor →
    Option (List (Nat × AudioType) × ISO639LangDescriptor)
  | 0, _ => none
  | fuel + 1, d =>
    (ISO639LangDescriptor.Pop d).bind fun r =>
      if r.2.2.isNil then
        some ([], d)
      else
        (iso639LangLoop fuel r.2.2).bind fun t => some ((r.1, r.2.1) :: t.1, t.2)

/-- The named service types of the constant block of `descriptors.go` (lines 10 to 38),
each with the label made of the words of its name. -/
def namedServiceTypes : List (Nat × String) :=
  [ (0x01, "digital television"),
    (0x02, "digital radio sound"),
    (0x03, "teletext"),
    (0x04, "NVOD reference"),
    (0x05, "NVOD time-shifted"),
    (0x06, "mosaic"),
    (0x07, "FM radio"),
    (0x08, "DVB SRM"),
    (0x0a, "advanced codec digital radio sound"),
    (0x0b, "advanced codec mosaic"),
    (0x0c, "data broadcast"),
    (0x0e, "RCS Map"),
    (0x0f, "RCS FLS"),
    (0x10, "DVB MHP"),
    (0x11, "MPEG-2 HD digital television"),
    (0x16, "advanced codec SD digital television"),
    (0x17, "advanced codec SD NVOD time-shifted"),
    (0x18, "advanced codec SD NVOD reference"),
    (0x19, "advanced codec HD digital television"),
    (0x1a, "advanced codec HD NVOD time-shifted"),
    (0x1b, "advanced codec HD NVOD reference") ]

/-- The service type codes without a named constant and below the user band: 0x00, 0x09,
0x0d, 0x12 to 0x15, 0x1c to 0x7f, and 0xff. -/
def unassignedServiceType (t : Nat) : Bool :=
  t = 0x00 || t = 0x09 || t = 0x0d || (0x12 ≤ t && t ≤ 0x15) || (0x1c ≤ t && t ≤ 0x7f) ||
    t = 0xff

/-! ## Properties -/

/-! ### Byte slices -/

namespace ByteSlice

theorem len_view (e sp : List Byte) : (view e sp).len = e.length := rfl

theorem toList_view (e sp : List Byte) : (view e sp).toList = e := rfl

theorem index_view (e sp : List Byte) (i : Nat) : (view e sp).index i = e[i]? := rfl

theorem sliceFrom_view (e sp : List Byte) (k : Nat) (h : k ≤ e.length) :
    (view e sp).sliceFrom k = some (view (e.drop k) sp) := by
  simp [sliceFrom, slice, len, toList, cap, backing, h, List.take_append_eq_append_take,
    List.drop_append_eq_append_drop]

theorem slice_view (e sp : List Byte) (lo hi : Nat) (h : lo ≤ hi) (h2 : hi ≤ e.length) :
    (view e sp).slice lo hi = some (view ((e.take hi).drop lo) (e.drop hi ++ sp)) := by
  have h3 : hi ≤ e.length + sp.length := by omega
  have h4 : hi - e.length = 0 := by omega
  simp [slice, cap, backing, h, h3, h4, List.take_append_eq_append_take,
    List.drop_append_eq_append_drop]

theorem sliceTo_view (e sp : List Byte) (n : Nat) (h : n ≤ e.length) :
    (view e sp).sliceTo n = some (view (e.take n) (e.drop n ++ sp)) := by
  rw [sliceTo, slice_view e sp 0 n (Nat.zero_le n) h]
  simp

end ByteSlice

/-! ### Service descriptor -/

theorem ParseServiceDescriptor_same_tag (tag : Byte) (data : ByteSlice) :
    ParseServiceDescriptor tag ⟨tag, data⟩ = ParseServiceDescriptor 0 ⟨0, data⟩ := by
  simp [ParseServiceDescriptor]


theorem ParseServiceDescriptor_view_cons (tag t n : Byte) (rest sp : List Byte) :
    ParseServiceDescriptor tag ⟨tag, ByteSlice.view (t :: n :: rest) sp⟩ =
      if rest.length < (n.val + 1) % 256 then
        some ({ Typ := t, ProviderName := ByteSlice.nil, ServiceName := ByteSlice.nil }, false)
      else
        ((ByteSlice.view rest sp).sliceTo n.val).bind fun providerName =>
        (rest[n.val]?).bind fun serviceNameLen =>
        ((ByteSlice.view rest sp).sliceFrom ((n.val + 1) % 256)).bind fun data =>
        if data.len < serviceNameLen.val then
          some ({ Typ := t, ProviderName := providerName, ServiceName := ByteSlice.nil }, false)
        else
          (data.sliceTo serviceNameLen.val).bind fun serviceName =>
          some ({ Typ := t, ProviderName := providerName, ServiceName := serviceName }, true) := by
  have h2 : (ByteSlice.view (t :: n :: rest) sp).sliceFrom 2 = some (ByteSlice.view rest sp) := by
    rw [ByteSlice.sliceFrom_view _ _ 2 (by simp)]
    simp
  simp only [ParseServiceDescriptor, ne_eq, not_true_eq_false, if_false, ByteSlice.len_view,
    List.length_cons, ByteSlice.index_view, h2, Option.bind]
  simp [ServiceDescriptor.zero, ByteSlice.len_view, ByteSlice.index_view]

/-- With a provider name length below 255 and a payload too short to hold the provider
name and the next length byte, the parse fails. -/
theorem ParseServiceDescriptor_short_provider (tag t n : Byte) (rest sp : List Byte)
    (hn : n.val ≤ 254) (hlen : rest.length < n.val + 1) :
    ParseServiceDescriptor tag ⟨tag, ByteSlice.view (t :: n :: rest) sp⟩ =
      some ({ Typ := t, ProviderName := ByteSlice.nil, ServiceName := ByteSlice.nil }, false) := by
  have hmod : (n.val + 1) % 256 = n.val + 1 := by omega
  rw [ParseServiceDescriptor_view_cons, hmod, if_pos hlen]

/-- With a provider name length below 255 and a payload that holds the provider name and
the next length byte `m`, the parse succeeds exactly when `m` bytes follow. -/
theorem ParseServiceDescriptor_long_provider (tag t n m : Byte) (rest sp : List Byte)
    (hn : n.val ≤ 254) (hlen : n.val + 1 ≤ rest.length) (hm : rest[n.val]? = some m) :
    ParseServiceDescriptor tag ⟨tag, ByteSlice.view (t :: n :: rest) sp⟩ =
      if (rest.drop (n.val + 1)).length < m.val then
        some ({ Typ := t, ProviderName := ByteSlice.view (rest.take n.val) (rest.drop n.val ++ sp),
                ServiceName := ByteSlice.nil }, false)
      else
        some ({ Typ := t, ProviderName := ByteSlice.view (rest.take n.val) (rest.drop n.val ++ sp),
                ServiceName := ByteSlice.view ((rest.drop (n.val + 1)).take m.val)
                  ((rest.drop (n.val + 1)).drop m.val ++ sp) }, true) := by
  have hmod : (n.val + 1) % 256 = n.val + 1 := by omega
  rw [ParseServiceDescriptor_view_cons, hmod, if_neg (by omega),
    ByteSlice.sliceTo_view _ _ _ (by omega), ByteSlice.sliceFrom_view _ _ _ hlen, hm]
  simp only [Option.bind, ByteSlice.len_view]
  by_cases h : (rest.drop (n.val + 1)).length < m.val
  · rw [if_pos h, if_pos h]
  · rw [if_neg h, if_neg h, ByteSlice.sliceTo_view _ _ _ (Nat.le_of_not_lt h)]

/-- With a provider name length of 255 the bound `providerNameLen+1` wraps to 0: a payload
with at most 255 bytes after the first two makes the parser panic. -/
theorem ParseServiceDescriptor_255_panics (tag t n : Byte) (rest sp : List Byte)
    (hn : n.val = 255) (hlen : rest.length ≤ 255) :
    ParseServiceDescriptor tag ⟨tag, ByteSlice.view (t :: n :: rest) sp⟩ = none := by
  have hmod : (n.val + 1) % 256 = 0 := by omega
  have hidx : rest[255]? = none := by simp [hlen]
  rw [ParseServiceDescriptor_view_cons, hmod, hn, if_neg (Nat.not_lt_zero _), hidx]
  cases (ByteSlice.view rest sp).sliceTo 255 <;> rfl

/-- With a provider name length of 255 and at least 256 bytes after the first two, the
service name is cut from the start of the provider name and the parse always succeeds. -/
theorem ParseServiceDescriptor_255_long (tag t n m : Byte) (rest sp : List Byte)
    (hn : n.val = 255) (hlen : 256 ≤ rest.length) (hm : rest[255]? = some m) :
    ParseServiceDescriptor tag ⟨tag, ByteSlice.view (t :: n :: rest) sp⟩ =
      some ({ Typ := t, ProviderName := ByteSlice.view (rest.take 255) (rest.drop 255 ++ sp),
              ServiceName := ByteSlice.view (rest.take m.val) (rest.drop m.val ++ sp) }, true) := by
  have hmod : (n.val + 1) % 256 = 0 := by omega
  have hmlt : m.val ≤ rest.length := by have := m.isLt; omega
  rw [ParseServiceDescriptor_view_cons, hmod, hn, if_neg (Nat.not_lt_zero _), hm,
    ByteSlice.sliceTo_view _ _ _ (by omega), ByteSlice.sliceFrom_view _ _ _ (Nat.zero_le _)]
  simp only [Option.bind, ByteSlice.len_view, List.drop_zero, if_neg (Nat.not_lt.mpr hmlt),
    ByteSlice.sliceTo_view _ _ _ hmlt]

/-- With a provider name of at most 254 bytes, the well-formed payload without its last
byte is rejected. -/
theorem ParseServiceDescriptor_truncated_fails (tag t n m : Byte) (p s sp : List Byte)
    (hn : n.val = p.length) (hm : m.val = s.length) (hp : p.length ≤ 254) (hs : s ≠ []) :
    ∃ sd, ParseServiceDescriptor tag
        ⟨tag, ByteSlice.view (([t, n] ++ p ++ [m] ++ s).dropLast) sp⟩ = some (sd, false) := by
  have e : ([t, n] ++ p ++ [m] ++ s).dropLast = t :: n :: (p ++ m :: s.dropLast) := by
    have e1 : [t, n] ++ p ++ [m] ++ s = ([t, n] ++ p ++ [m]) ++ s := rfl
    rw [e1, List.dropLast_append_of_ne_nil _ hs]
    simp
  have hslen : 0 < s.length := List.length_pos.mpr hs
  have hidx : (p ++ m :: s.dropLast)[n.val]? = some m := by
    rw [hn, List.getElem?_append_right (Nat.le_refl _)]
    simp
  have hdrop : (p ++ m :: s.dropLast).drop (n.val + 1) = s.dropLast := by
    rw [hn]
    simp [List.drop_append_eq_append_drop]
  rw [e, ParseServiceDescriptor_long_provider tag t n m _ sp (by omega)
    (by simp [hn]) hidx, hdrop]
  have hlt : s.dropLast.length < m.val := by
    rw [List.length_dropLast, hm]
    omega
  rw [if_pos hlt]
  exact ⟨_, rfl⟩

/-- The parser panics exactly on the payloads of at most 257 bytes whose second byte,
the provider name length, is 255, presented with the service tag. -/
theorem ParseServiceDescriptor_panics_iff (tag : Byte) (d : Descriptor) :
    ParseServiceDescriptor tag d = none ↔
      d.Tag = tag ∧ d.Data.index 1 = some 255 ∧ d.Data.len ≤ 257 := by
  obtain ⟨dtag, data⟩ := d
  by_cases ht : dtag = tag
  swap
  · simp [ParseServiceDescriptor, ht]
  subst ht
  cases data with
  | nil => simp [ParseServiceDescriptor, ByteSlice.len, ByteSlice.toList, ByteSlice.index]
  | view e sp =>
    match e with
    | [] => simp [ParseServiceDescriptor, ByteSlice.len, ByteSlice.toList, ByteSlice.index]
    | [a] => simp [ParseServiceDescriptor, ByteSlice.len, ByteSlice.toList, ByteSlice.index]
    | t :: n :: rest =>
      simp only [ByteSlice.index_view, ByteSlice.len_view, List.length_cons, true_and]
      have hn1 : (t :: n :: rest)[1]? = some n := by simp
      rw [hn1]
      by_cases hn : n.val = 255
      · have hn2 : n = 255 := Fin.ext hn
        by_cases hlen : rest.length ≤ 255
        · rw [ParseServiceDescriptor_255_panics dtag t n rest sp hn hlen]
          simp [hn2]; omega
        · have h256 : 256 ≤ rest.length := by omega
          obtain ⟨m, hm⟩ : ∃ m, rest[255]? = some m :=
            ⟨rest[255], List.getElem?_eq_getElem (by omega)⟩
          rw [ParseServiceDescriptor_255_long dtag t n m rest sp hn h256 hm]
          simp; omega
      · have hn2 : n ≠ 255 := fun h => hn (by rw [h]; rfl)
        have hn3 : n.val ≤ 254 := by have := n.isLt; omega
        by_cases hlen : rest.length < n.val + 1
        · rw [ParseServiceDescriptor_short_provider dtag t n rest sp hn3 hlen]
          simp [hn2]
        · obtain ⟨m, hm⟩ : ∃ m, rest[n.val]? = some m :=
            ⟨rest[n.val], List.getElem?_eq_getElem (by omega)⟩
          rw [ParseServiceDescriptor_long_provider dtag t n m rest sp hn3 (by omega) hm]
          split <;> simp [hn2]

/-- C1 (code defect). On the payload `[0x01, 0xFF]` presented with the service tag the
parser panics, whatever the capacity of the payload slice: the byte sum
`providerNameLen+1` wraps to 0, the length check passes and `data[providerNameLen]` is
out of range. -/
theorem ParseServiceDescriptor_panics_on_01_FF (tag : Byte) (spare : List Byte) :
    ParseServiceDescriptor tag ⟨tag, ByteSlice.view [0x01, 0xFF] spare⟩ = none :=
  ParseServiceDescriptor_255_panics tag 0x01 0xFF [] spare rfl (by simp)

/-- C2, counterexample. With a provider name of 255 bytes `A` and the service name `B`
the parser reports success but returns `A` as the service name: `providerNameLen+1`
wraps to 0 and the service name is sliced from the start of the provider name. The
payload has 259 bytes. -/
theorem ParseServiceDescriptor_provider255_counterexample :
    (ParseServiceDescriptor 0x48
      ⟨0x48, ByteSlice.view ([0x01, 0xFF] ++ List.replicate 255 0x41 ++ [1, 0x42]) []⟩).map
      (fun r => (r.2, r.1.Typ, r.1.ProviderName.toList, r.1.ServiceName.toList))
      = some (true, 0x01, List.replicate 255 0x41, [0x41]) ∧
    ([0x41] : List Byte) ≠ [0x42] := by
  set_option maxRecDepth 100000 in decide

/-- C2, amended. For every service type byte `t`, every provider name `p` of at most 254
bytes, every service name `s` of at most 255 bytes and every sequence `x` of trailing
bytes, the payload `[t, len(p)] ++ p ++ [len(s)] ++ s ++ x` presented with the service tag
is parsed with `ok = true`, `Type = t`, `ProviderName = p` and `ServiceName = s`. -/
theorem ParseServiceDescriptor_wellformed (tag t n m : Byte) (p s x sp : List Byte)
    (hn : n.val = p.length) (hm : m.val = s.length) (hp : p.length ≤ 254) :
    ∃ sd, ParseServiceDescriptor tag
        ⟨tag, ByteSlice.view ([t, n] ++ p ++ [m] ++ s ++ x) sp⟩ = some (sd, true) ∧
      sd.Typ = t ∧ sd.ProviderName.toList = p ∧ sd.ServiceName.toList = s := by
  have e : [t, n] ++ p ++ [m] ++ s ++ x = t :: n :: (p ++ m :: (s ++ x)) := by simp
  have hmod : (n.val + 1) % 256 = p.length + 1 := by omega
  rw [e, ParseServiceDescriptor_view_cons, hmod, hn]
  have h1 : ¬ (p ++ m :: (s ++ x)).length < p.length + 1 := by simp
  have hidx : (p ++ m :: (s ++ x))[p.length]? = some m := by
    rw [List.getElem?_append_right (Nat.le_refl _)]
    simp
  have hdrop : (p ++ m :: (s ++ x)).drop (p.length + 1) = s ++ x := by
    simp [List.drop_append_eq_append_drop]
  have h2 : ¬ (s ++ x).length < s.length := by simp
  rw [if_neg h1, ByteSlice.sliceTo_view _ _ _ (by simp),
    ByteSlice.sliceFrom_view _ _ _ (by simp), hidx, hdrop]
  simp only [Option.bind, ByteSlice.len_view, hm, if_neg h2,
    ByteSlice.sliceTo_view _ _ _ (Nat.le_of_not_lt h2)]
  exact ⟨_, rfl, rfl, by simp [ByteSlice.toList_view], by simp [ByteSlice.toList_view]⟩

/-- Witness of C2, amended: the payload `[0x01, 2, A, B, 3, X, Y, Z]`. -/
theorem ParseServiceDescriptor_wellformed_witness :
    ∃ sd, ParseServiceDescriptor 0x48
        ⟨0x48, ByteSlice.view ([0x01, 2] ++ [0x41, 0x42] ++ [3] ++ [0x58, 0x59, 0x5A] ++ []) []⟩ =
          some (sd, true) ∧
      sd.Typ = 0x01 ∧ sd.ProviderName.toList = [0x41, 0x42] ∧
      sd.ServiceName.toList = [0x58, 0x59, 0x5A] :=
  ParseServiceDescriptor_wellformed 0x48 0x01 2 3 [0x41, 0x42] [0x58, 0x59, 0x5A] [] []
    rfl rfl (by decide)

/-- C3 (code defect). The well-formed payload with a provider name of 255 bytes `A` and the
service name `XY`, cut by its last byte, is still parsed with `ok = true`; and the payload
`[0x01, 0xFF, 0x41]`, where fewer than `providerNameLen + 1` bytes follow the first two,
makes the parser panic instead of returning `ok = false`. -/
theorem ParseServiceDescriptor_provider255_truncation_accepted (tag : Byte) :
    (ParseServiceDescriptor tag
      ⟨tag, ByteSlice.view ([0x01, 0xFF] ++ List.replicate 255 0x41 ++ [2, 0x58]) []⟩).map
      (fun r => (r.2, r.1.ServiceName.toList)) = some (true, [0x41, 0x41]) ∧
    ParseServiceDescriptor tag ⟨tag, ByteSlice.view [0x01, 0xFF, 0x41] []⟩ = none := by
  constructor
  · rw [ParseServiceDescriptor_same_tag]
    set_option maxRecDepth 100000 in decide
  · exact ParseServiceDescriptor_255_panics tag 0x01 0xFF [0x41] [] rfl (by simp)

/-! ### Terrestrial delivery system descriptor: the parser equals its decision table -/

namespace ByteSlice

theorem index_of_lt (s : ByteSlice) (i : Nat) (h : i < s.len) :
    s.index i = some (s.toList.getD i 0) := by
  unfold index len at *
  rw [List.getD_eq_getElem?_getD, List.getElem?_eq_getElem h]
  rfl

theorem byteAt_lt (s : ByteSlice) (i : Nat) : s.byteAt i < 256 := (s.toList.getD i 0).isLt

end ByteSlice

theorem byte_shiftRight (n k : Nat) : n >>> k = n / 2 ^ k := Nat.shiftRight_eq_div_pow n k

theorem byte_and_7 (n : Nat) : n &&& 7 = n % 8 := Nat.and_pow_two_sub_one_eq_mod n 3

theorem byte_and_3 (n : Nat) : n &&& 3 = n % 4 := Nat.and_pow_two_sub_one_eq_mod n 2

theorem byte_and_1 (n : Nat) : n &&& 1 = n % 2 := Nat.and_pow_two_sub_one_eq_mod n 1

theorem and_0x1fff (n : Nat) : n &&& 0x1fff = n % 8192 := Nat.and_pow_two_sub_one_eq_mod n 13

theorem decodeU32_slice (data : ByteSlice) (h : 4 ≤ data.len) :
    (data.slice 0 4).bind decodeU32 = some (bigEndian32 data) := by
  cases data with
  | nil => simp [ByteSlice.len, ByteSlice.toList] at h
  | view e sp =>
    match e, h with
    | a :: b :: c :: d :: rest, _ =>
      rw [ByteSlice.slice_view _ _ 0 4 (by omega) (by simp)]
      simp [decodeU32, ByteSlice.index_view, bigEndian32, ByteSlice.byteAt, ByteSlice.toList]

theorem parseTerrestrialTail_eq (c : DvbConsts) (data : ByteSlice)
    (tds : TerrestrialDeliverySystemDescriptor) (h : 7 ≤ data.len) :
    parseTerrestrialTail c data tds =
      if data.byteAt 5 / 8 % 8 > c.Hierarchy4 then
        some ({ tds with Hierarchy := data.byteAt 5 / 8 % 8 }, false)
      else if codeRate c (data.byteAt 5 % 8) = c.FECNone then
        some ({ tds with Hierarchy := data.byteAt 5 / 8 % 8,
                         CodeRateHP := codeRate c (data.byteAt 5 % 8) }, false)
      else if codeRate c (data.byteAt 6 / 32) = c.FECNone then
        some ({ tds with Hierarchy := data.byteAt 5 / 8 % 8,
                         CodeRateHP := codeRate c (data.byteAt 5 % 8),
                         CodeRateLP := codeRate c (data.byteAt 6 / 32) }, false)
      else if data.byteAt 6 / 2 % 4 > c.TxMode8k then
        some ({ tds with Hierarchy := data.byteAt 5 / 8 % 8,
                         CodeRateHP := codeRate c (data.byteAt 5 % 8),
                         CodeRateLP := codeRate c (data.byteAt 6 / 32),
                         Guard := data.byteAt 6 / 8 % 4,
                         TxMode := data.byteAt 6 / 2 % 4 }, false)
      else
        some ({ tds with Hierarchy := data.byteAt 5 / 8 % 8,
                         CodeRateHP := codeRate c (data.byteAt 5 % 8),
                         CodeRateLP := codeRate c (data.byteAt 6 / 32),
                         Guard := data.byteAt 6 / 8 % 4,
                         TxMode := data.byteAt 6 / 2 % 4,
                         OtherFreq := decide (data.byteAt 6 % 2 ≠ 0) }, true) := by
  unfold parseTerrestrialTail
  rw [ByteSlice.index_of_lt data 5 (by omega), ByteSlice.index_of_lt data 6 (by omega)]
  simp only [Option.bind, byte_shiftRight, byte_and_7, byte_and_3, byte_and_1]
  rfl

theorem parseTerrestrialConstellation_eq (c : DvbConsts) (data : ByteSlice)
    (tds : TerrestrialDeliverySystemDescriptor) (h : 7 ≤ data.len) :
    parseTerrestrialConstellation c data tds =
      if data.byteAt 5 / 64 = 3 then some (tds, false)
      else parseTerrestrialTail c data
        { tds with Constellation :=
            if data.byteAt 5 / 64 = 0 then c.QPSK
            else if data.byteAt 5 / 64 = 1 then c.QAM16 else c.QAM64 } := by
  unfold parseTerrestrialConstellation
  rw [ByteSlice.index_of_lt data 5 (by omega)]
  simp only [Option.bind, byte_shiftRight]
  have hlt := ByteSlice.byteAt_lt data 5
  unfold ByteSlice.byteAt at *
  split
  · next h0 => rw [if_neg (by omega), if_pos (by omega)]
  · next h1 => rw [if_neg (by omega), if_neg (by omega), if_pos (by omega)]
  · next h2 => rw [if_neg (by omega), if_neg (by omega), if_neg (by omega)]
  · next h0 h1 h2 =>
    have h0 : ¬ _ := h0
    have h1 : ¬ _ := h1
    have h2 : ¬ _ := h2
    rw [if_pos (by omega)]

theorem ParseTerrestrial_eq_table (c : DvbConsts) (tag : Byte) (d : Descriptor)
    (ht : d.Tag = tag) (hl : 11 ≤ d.Data.len) :
    ParseTerrestrialDeliverySystemDescriptor c tag d = some (terrestrialTable c d.Data) := by
  have hfreq : (bigEndian32 d.Data * 10) % 2 ^ 64 = 10 * bigEndian32 d.Data := by
    have h0 := ByteSlice.byteAt_lt d.Data 0
    have h1 := ByteSlice.byteAt_lt d.Data 1
    have h2 := ByteSlice.byteAt_lt d.Data 2
    have h3 := ByteSlice.byteAt_lt d.Data 3
    unfold bigEndian32
    omega
  have hu := decodeU32_slice d.Data (by omega)
  unfold ParseTerrestrialDeliverySystemDescriptor
  rw [if_neg (by simp [ht]), if_neg (by omega)]
  obtain ⟨d04, hs, hd⟩ := Option.bind_eq_some.mp hu
  rw [hs, Option.some_bind, hd, Option.some_bind, ByteSlice.index_of_lt d.Data 4 (by omega),
    Option.some_bind]
  simp only [hfreq, byte_shiftRight, parseTerrestrialConstellation_eq c d.Data _ (by omega),
    parseTerrestrialTail_eq c d.Data _ (by omega)]
  have hlt := ByteSlice.byteAt_lt d.Data 4
  unfold terrestrialTable terrestrialPrefix TerrestrialDeliverySystemDescriptor.zero
  change (match d.Data.byteAt 4 / 2 ^ 5 with
    | 0 => _
    | 1 => _
    | _ => _) = _
  split
  · next h0 =>
    have h0 : d.Data.byteAt 4 / 32 = 0 := h0
    have hn : ¬ 2 ≤ d.Data.byteAt 4 / 32 := by omega
    simp only [if_neg hn, h0, Nat.reduceLeDiff, if_true, if_false]
    by_cases hc : d.Data.byteAt 5 / 64 = 3
    · simp only [if_pos hc]
    simp only [if_neg hc]
    by_cases hh : d.Data.byteAt 5 / 8 % 8 > c.Hierarchy4
    · simp only [if_pos hh]
    simp only [if_neg hh]
    by_cases hhp : codeRate c (d.Data.byteAt 5 % 8) = c.FECNone
    · simp only [if_pos hhp]
    simp only [if_neg hhp]
    by_cases hlp : codeRate c (d.Data.byteAt 6 / 32) = c.FECNone
    · simp only [if_pos hlp]
    simp only [if_neg hlp]
    by_cases htx : d.Data.byteAt 6 / 2 % 4 > c.TxMode8k
    · simp only [if_pos htx]
    simp only [if_neg htx]
  · next h1 =>
    have h1 : d.Data.byteAt 4 / 32 = 1 := h1
    have hn : ¬ 2 ≤ d.Data.byteAt 4 / 32 := by omega
    simp only [if_neg hn, h1, Nat.reduceLeDiff, if_true, if_false, one_ne_zero]
    by_cases hc : d.Data.byteAt 5 / 64 = 3
    · simp only [if_pos hc]
    simp only [if_neg hc]
    by_cases hh : d.Data.byteAt 5 / 8 % 8 > c.Hierarchy4
    · simp only [if_pos hh]
    simp only [if_neg hh]
    by_cases hhp : codeRate c (d.Data.byteAt 5 % 8) = c.FECNone
    · simp only [if_pos hhp]
    simp only [if_neg hhp]
    by_cases hlp : codeRate c (d.Data.byteAt 6 / 32) = c.FECNone
    · simp only [if_pos hlp]
    simp only [if_neg hlp]
    by_cases htx : d.Data.byteAt 6 / 2 % 4 > c.TxMode8k
    · simp only [if_pos htx]
    simp only [if_neg htx]
  · next h0 h1 =>
    have h0 : ¬ d.Data.byteAt 4 / 32 = 0 := h0
    have h1 : ¬ d.Data.byteAt 4 / 32 = 1 := h1
    have hn : 2 ≤ d.Data.byteAt 4 / 32 := by omega
    simp only [if_pos hn]
    rfl

theorem codeRate_of_le_four (c : DvbConsts) (h12 : c.FEC12 = 1) (h23 : c.FEC23 = 2)
    (h34 : c.FEC34 = 3) (x : Nat) (hx : x ≤ 4) : fecOfCode c x = some (codeRate c x) := by
  match x, hx with
  | 0, _ => simp [fecOfCode, codeRate, h12]
  | 1, _ => simp [fecOfCode, codeRate, h23]
  | 2, _ => simp [fecOfCode, codeRate, h34]
  | 3, _ => simp [fecOfCode, codeRate]
  | 4, _ => simp [fecOfCode, codeRate]

theorem codeRate_of_five_le (c : DvbConsts) (x : Nat) (hx : 5 ≤ x) :
    codeRate c x = c.FECNone := by
  match x, hx with
  | n + 5, _ => simp [codeRate]

/-- When the table reports success every check has passed and the record is complete. -/
theorem terrestrialTable_ok (c : DvbConsts) (data : ByteSlice)
    (v : TerrestrialDeliverySystemDescriptor) (h : terrestrialTable c data = (v, true)) :
    data.byteAt 4 / 32 ≤ 1 ∧ data.byteAt 5 / 64 ≠ 3 ∧ data.byteAt 5 / 8 % 8 ≤ c.Hierarchy4 ∧
    codeRate c (data.byteAt 5 % 8) ≠ c.FECNone ∧ codeRate c (data.byteAt 6 / 32) ≠ c.FECNone ∧
    data.byteAt 6 / 2 % 4 ≤ c.TxMode8k ∧
    v = { terrestrialPrefix c data 8 with OtherFreq := decide (data.byteAt 6 % 2 ≠ 0) } := by
  unfold terrestrialTable at h
  split_ifs at h with h1 h2 h3 h4 h5 h6
  all_goals first
    | exact absurd (Prod.mk.inj h).2 Bool.false_ne_true
    | exact ⟨by omega, h2, by omega, h4, h5, by omega, (Prod.mk.inj h).1.symm⟩

/-- C4, counterexample. A payload with bandwidth code 2 is rejected, but the record
returned with `ok = false` carries the decoded frequency and is not the zero value. -/
theorem ParseTerrestrial_failure_not_zero :
    ParseTerrestrialDeliverySystemDescriptor linuxConsts 0x5A
        ⟨0x5A, ByteSlice.view [0, 0, 0, 1, 0x40, 0, 0, 0, 0, 0, 0] []⟩ =
      some ({ TerrestrialDeliverySystemDescriptor.zero with Freq := 10 }, false) ∧
    ({ TerrestrialDeliverySystemDescriptor.zero with Freq := 10 } :
      TerrestrialDeliverySystemDescriptor) ≠ TerrestrialDeliverySystemDescriptor.zero := by
  decide

/-- C4, amended. When `ParseTerrestrialDeliverySystemDescriptor` returns `ok = false`:
for a wrong tag or a payload shorter than 11 bytes the returned record is the zero value;
otherwise exactly one check is the first to fail and the record holds the fields decoded
up to that check, every later field being zero: `Freq` alone when the bandwidth code is 2
or more; `Freq` and `Bandwidth` when the constellation code is 3; these, `Constellation`
and `Hierarchy` when the hierarchy code is above `dvb.Hierarchy4`; also `CodeRateHP` when
the high-priority code rate is `dvb.FECNone`; also `CodeRateLP` when the low-priority code
rate is `dvb.FECNone`; also `Guard` and `TxMode` when the transmission mode is above
`dvb.TxMode8k`. `OtherFreq` is false in every case. -/
theorem ParseTerrestrial_failure_value (c : DvbConsts) (tag : Byte) (d : Descriptor)
    (v : TerrestrialDeliverySystemDescriptor)
    (h : ParseTerrestrialDeliverySystemDescriptor c tag d = some (v, false)) :
    ((d.Tag ≠ tag ∨ d.Data.len < 11) → v = TerrestrialDeliverySystemDescriptor.zero) ∧
    ((d.Tag = tag ∧ 11 ≤ d.Data.len) →
      (2 ≤ d.Data.byteAt 4 / 32 ∧ v = terrestrialPrefix c d.Data 1) ∨
      (d.Data.byteAt 4 / 32 ≤ 1 ∧ d.Data.byteAt 5 / 64 = 3 ∧
        v = terrestrialPrefix c d.Data 2) ∨
      (d.Data.byteAt 4 / 32 ≤ 1 ∧ d.Data.byteAt 5 / 64 ≤ 2 ∧
        c.Hierarchy4 < d.Data.byteAt 5 / 8 % 8 ∧ v = terrestrialPrefix c d.Data 4) ∨
      (d.Data.byteAt 4 / 32 ≤ 1 ∧ d.Data.byteAt 5 / 64 ≤ 2 ∧
        d.Data.byteAt 5 / 8 % 8 ≤ c.Hierarchy4 ∧
        codeRate c (d.Data.byteAt 5 % 8) = c.FECNone ∧ v = terrestrialPrefix c d.Data 5) ∨
      (d.Data.byteAt 4 / 32 ≤ 1 ∧ d.Data.byteAt 5 / 64 ≤ 2 ∧
        d.Data.byteAt 5 / 8 % 8 ≤ c.Hierarchy4 ∧
        codeRate c (d.Data.byteAt 5 % 8) ≠ c.FECNone ∧
        codeRate c (d.Data.byteAt 6 / 32) = c.FECNone ∧ v = terrestrialPrefix c d.Data 6) ∨
      (d.Data.byteAt 4 / 32 ≤ 1 ∧ d.Data.byteAt 5 / 64 ≤ 2 ∧
        d.Data.byteAt 5 / 8 % 8 ≤ c.Hierarchy4 ∧
        codeRate c (d.Data.byteAt 5 % 8) ≠ c.FECNone ∧
        codeRate c (d.Data.byteAt 6 / 32) ≠ c.FECNone ∧
        c.TxMode8k < d.Data.byteAt 6 / 2 % 4 ∧ v = terrestrialPrefix c d.Data 8)) := by
  constructor
  · intro hbad
    unfold ParseTerrestrialDeliverySystemDescriptor at h
    by_cases ht : d.Tag ≠ tag
    · rw [if_pos ht] at h
      simpa using h.symm
    · rw [if_neg ht] at h
      have hl : d.Data.len < 11 := hbad.resolve_left ht
      simp only [if_pos hl] at h
      simpa using h.symm
  · rintro ⟨ht, hl⟩
    rw [ParseTerrestrial_eq_table c tag d ht hl] at h
    have h := Option.some.inj h
    have h5lt : d.Data.byteAt 5 / 64 ≤ 3 := by
      have := ByteSlice.byteAt_lt d.Data 5
      omega
    unfold terrestrialTable at h
    split_ifs at h with h1 h2 h3 h4 h5 h6
    · exact Or.inl ⟨h1, (Prod.mk.inj h).1.symm⟩
    · exact Or.inr (Or.inl ⟨by omega, h2, (Prod.mk.inj h).1.symm⟩)
    · exact Or.inr (Or.inr (Or.inl ⟨by omega, by omega, h3, (Prod.mk.inj h).1.symm⟩))
    · exact Or.inr (Or.inr (Or.inr (Or.inl
        ⟨by omega, by omega, by omega, h4, (Prod.mk.inj h).1.symm⟩)))
    · exact Or.inr (Or.inr (Or.inr (Or.inr (Or.inl
        ⟨by omega, by omega, by omega, h4, h5, (Prod.mk.inj h).1.symm⟩))))
    · exact Or.inr (Or.inr (Or.inr (Or.inr (Or.inr
        ⟨by omega, by omega, by omega, h4, h5, h6, (Prod.mk.inj h).1.symm⟩))))
    · exact absurd (Prod.mk.inj h).2 (by simp)

/-- Witness of C4, amended: on a payload with bandwidth code 2 the record holds `Freq`
alone; on a payload whose constellation code is 3 it holds `Freq` and `Bandwidth`. -/
theorem ParseTerrestrial_failure_value_witness :
    ({ TerrestrialDeliverySystemDescriptor.zero with Freq := 10 } :
        TerrestrialDeliverySystemDescriptor) =
      terrestrialPrefix linuxConsts
        (ByteSlice.view [0, 0, 0, 1, 0x40, 0, 0, 0, 0, 0, 0] []) 1 ∧
    ({ TerrestrialDeliverySystemDescriptor.zero with Freq := 10, Bandwidth := 7000000 } :
        TerrestrialDeliverySystemDescriptor) =
      terrestrialPrefix linuxConsts
        (ByteSlice.view [0, 0, 0, 1, 0x20, 0xC0, 0, 0, 0, 0, 0] []) 2 := by
  constructor
  · rcases (ParseTerrestrial_failure_value linuxConsts 0x5A
      ⟨0x5A, ByteSlice.view [0, 0, 0, 1, 0x40, 0, 0, 0, 0, 0, 0] []⟩
      { TerrestrialDeliverySystemDescriptor.zero with Freq := 10 } (by decide)).2
      ⟨rfl, by decide⟩ with h | h | h | h | h | h
    · exact h.2
    all_goals exact absurd h.1 (by decide)
  · rcases (ParseTerrestrial_failure_value linuxConsts 0x5A
      ⟨0x5A, ByteSlice.view [0, 0, 0, 1, 0x20, 0xC0, 0, 0, 0, 0, 0] []⟩
      { TerrestrialDeliverySystemDescriptor.zero with Freq := 10, Bandwidth := 7000000 }
      (by decide)).2 ⟨rfl, by decide⟩ with h | h | h | h | h | h
    · exact absurd h.1 (by decide)
    · exact h.2.2
    all_goals exact absurd h.2.1 (by decide)

/-! ### Tag and length checks, CA descriptor -/

theorem decodeU16_slice (data : ByteSlice) (i : Nat) (h : i + 2 ≤ data.len) :
    (data.slice i (i + 2)).bind decodeU16 = some (bigEndian16 data i) := by
  cases data with
  | nil => simp [ByteSlice.len, ByteSlice.toList] at h
  | view e sp =>
    have h : i + 2 ≤ e.length := h
    rw [ByteSlice.slice_view _ _ i (i + 2) (by omega) h]
    have h0 : ((e.take (i + 2)).drop i)[0]? = some (e.getD i 0) := by
      rw [List.getElem?_drop, List.getElem?_take_of_lt (by omega), List.getD_eq_getElem?_getD,
        Nat.add_zero, List.getElem?_eq_getElem (by omega)]
      rfl
    have h1 : ((e.take (i + 2)).drop i)[1]? = some (e.getD (i + 1) 0) := by
      rw [List.getElem?_drop, List.getElem?_take_of_lt (by omega), List.getD_eq_getElem?_getD,
        List.getElem?_eq_getElem (by omega)]
      rfl
    simp only [Option.some_bind, decodeU16, ByteSlice.index_view, h0, h1]
    rfl

theorem ParseCADescriptor_eq (tag : Byte) (d : Descriptor) (ht : d.Tag = tag)
    (hl : 4 ≤ d.Data.len) :
    ParseCADescriptor tag d =
      some ({ Sys := bigEndian16 d.Data 0, Pid := bigEndian16 d.Data 2 % 8192 }, true) := by
  have h02 := decodeU16_slice d.Data 0 (by omega)
  have h24 := decodeU16_slice d.Data 2 (by omega)
  obtain ⟨d02, hs02, hd02⟩ := Option.bind_eq_some.mp h02
  obtain ⟨d24, hs24, hd24⟩ := Option.bind_eq_some.mp h24
  unfold ParseCADescriptor
  rw [if_neg (by simp [ht]), if_neg (by omega)]
  simp only [hs02, hd02, hs24, hd24, Option.some_bind, and_0x1fff]

/-- C5. Each of the six parsers, given a descriptor whose tag differs from the tag the
parser expects, returns `ok = false` with the zero value of its result type, whatever the
payload is. -/
theorem parsers_reject_wrong_tag (c : DvbConsts) (tag : Byte) (d : Descriptor)
    (h : d.Tag ≠ tag) :
    ParseServiceDescriptor tag d = some (ServiceDescriptor.zero, false) ∧
    ParseNetworkNameDescriptor tag d = some (ByteSlice.nil, false) ∧
    ParseServiceListDescriptor tag d = some (ByteSlice.nil, false) ∧
    ParseTerrestrialDeliverySystemDescriptor c tag d =
      some (TerrestrialDeliverySystemDescriptor.zero, false) ∧
    ParseCADescriptor tag d = some (CADescriptor.zero, false) ∧
    ParseISO639LangDescriptor tag d = some (ByteSlice.nil, false) := by
  refine ⟨?_, ?_, ?_, ?_, ?_, ?_⟩
  · unfold ParseServiceDescriptor
    rw [if_pos h]
  · unfold ParseNetworkNameDescriptor
    rw [if_pos h]
  · unfold ParseServiceListDescriptor
    rw [if_pos h]
  · unfold ParseTerrestrialDeliverySystemDescriptor
    rw [if_pos h]
  · unfold ParseCADescriptor
    rw [if_pos h]
  · unfold ParseISO639LangDescriptor
    rw [if_pos h]

/-- Witness of C5: a descriptor tagged 0x09 holding a well-formed service payload,
presented to parsers that expect the tag 0x48. -/
theorem parsers_reject_wrong_tag_witness :
    (⟨0x09, ByteSlice.view [0x01, 2, 0x41, 0x42, 3, 0x58, 0x59, 0x5A] []⟩ : Descriptor).Tag ≠ 0x48 ∧
    ParseServiceDescriptor 0x48 ⟨0x09, ByteSlice.view [0x01, 2, 0x41, 0x42, 3, 0x58, 0x59, 0x5A] []⟩
      = some (ServiceDescriptor.zero, false) :=
  ⟨by decide,
   (parsers_reject_wrong_tag linuxConsts 0x48
      ⟨0x09, ByteSlice.view [0x01, 2, 0x41, 0x42, 3, 0x58, 0x59, 0x5A] []⟩ (by decide)).1⟩

/-- C6. With the matching tag and a payload shorter than the fixed part of the layout
(2 bytes for the service descriptor, 4 for the CA descriptor, 11 for the terrestrial
delivery descriptor) the parser returns normally, with `ok = false` and the zero value. -/
theorem parsers_reject_short_payload (c : DvbConsts) (tag : Byte) (d : Descriptor)
    (ht : d.Tag = tag) :
    (d.Data.len < 2 → ParseServiceDescriptor tag d = some (ServiceDescriptor.zero, false)) ∧
    (d.Data.len < 4 → ParseCADescriptor tag d = some (CADescriptor.zero, false)) ∧
    (d.Data.len < 11 → ParseTerrestrialDeliverySystemDescriptor c tag d =
      some (TerrestrialDeliverySystemDescriptor.zero, false)) := by
  have hne : ¬ d.Tag ≠ tag := not_not.mpr ht
  refine ⟨fun hl => ?_, fun hl => ?_, fun hl => ?_⟩
  · unfold ParseServiceDescriptor
    rw [if_neg hne]
    simp only [if_pos hl]
  · unfold ParseCADescriptor
    rw [if_neg hne]
    simp only [if_pos hl]
  · unfold ParseTerrestrialDeliverySystemDescriptor
    rw [if_neg hne]
    simp only [if_pos hl]

/-- Witness of C6: a 10-byte payload under the terrestrial delivery tag, a 3-byte payload
under the CA tag and a 1-byte payload under the service tag. -/
theorem parsers_reject_short_payload_witness :
    ParseTerrestrialDeliverySystemDescriptor linuxConsts 0x5A
        ⟨0x5A, ByteSlice.view [1, 2, 3, 4, 5, 6, 7, 8, 9, 10] []⟩ =
      some (TerrestrialDeliverySystemDescriptor.zero, false) ∧
    ParseCADescriptor 0x09 ⟨0x09, ByteSlice.view [6, 2, 0xFF] []⟩ =
      some (CADescriptor.zero, false) ∧
    ParseServiceDescriptor 0x48 ⟨0x48, ByteSlice.view [0x01] []⟩ =
      some (ServiceDescriptor.zero, false) :=
  ⟨(parsers_reject_short_payload linuxConsts 0x5A
      ⟨0x5A, ByteSlice.view [1, 2, 3, 4, 5, 6, 7, 8, 9, 10] []⟩ rfl).2.2 (by decide),
   (parsers_reject_short_payload linuxConsts 0x09
      ⟨0x09, ByteSlice.view [6, 2, 0xFF] []⟩ rfl).2.1 (by decide),
   (parsers_reject_short_payload linuxConsts 0x48
      ⟨0x48, ByteSlice.view [0x01] []⟩ rfl).1 (by decide)⟩

/-- C7. With the CA tag and a payload `b` of at least 4 bytes, `ParseCADescriptor`
returns `ok = true`, `Sys = 256*b[0] + b[1]` and `Pid = (256*b[2] + b[3]) mod 8192`; so
`Pid` is below 8192 and depends on `b[2]` only through its low five bits. -/
theorem ParseCADescriptor_value (tag : Byte) (d : Descriptor) (ht : d.Tag = tag)
    (hl : 4 ≤ d.Data.len) :
    ∃ cad, ParseCADescriptor tag d = some (cad, true) ∧
      cad.Sys = 256 * d.Data.byteAt 0 + d.Data.byteAt 1 ∧
      cad.Pid = (256 * d.Data.byteAt 2 + d.Data.byteAt 3) % 8192 ∧
      cad.Pid < 8192 ∧
      cad.Pid = 256 * (d.Data.byteAt 2 % 32) + d.Data.byteAt 3 := by
  refine ⟨_, ParseCADescriptor_eq tag d ht hl, rfl, rfl, ?_, ?_⟩
  · exact Nat.mod_lt _ (by decide)
  · have h3 := ByteSlice.byteAt_lt d.Data 3
    show (256 * d.Data.byteAt 2 + d.Data.byteAt 3) % 8192 = _
    omega

/-- Witness of C7: the payload `[0x06, 0x02, 0xFF, 0xFF]` gives `Sys = 0x0602` and
`Pid = 0x1FFF`. -/
theorem ParseCADescriptor_value_witness :
    4 ≤ (⟨0x09, ByteSlice.view [0x06, 0x02, 0xFF, 0xFF] []⟩ : Descriptor).Data.len ∧
    ∃ cad, ParseCADescriptor 0x09 ⟨0x09, ByteSlice.view [0x06, 0x02, 0xFF, 0xFF] []⟩ =
        some (cad, true) ∧ cad.Sys = 0x0602 ∧ cad.Pid = 0x1FFF :=
  ⟨by decide,
   match ParseCADescriptor_value 0x09 ⟨0x09, ByteSlice.view [0x06, 0x02, 0xFF, 0xFF] []⟩ rfl
      (by decide) with
   | ⟨cad, h, hs, hp, _⟩ => ⟨cad, h, hs.trans (by decide), hp.trans (by decide)⟩⟩

/-! ### Terrestrial delivery system descriptor: field decoding -/

/-- When every check passes the table returns the complete record with `ok = true`. -/
theorem terrestrialTable_of_valid (c : DvbConsts) (data : ByteSlice)
    (h1 : data.byteAt 4 / 32 ≤ 1) (h2 : data.byteAt 5 / 64 ≤ 2)
    (h3 : data.byteAt 5 / 8 % 8 ≤ c.Hierarchy4)
    (h4 : codeRate c (data.byteAt 5 % 8) ≠ c.FECNone)
    (h5 : codeRate c (data.byteAt 6 / 32) ≠ c.FECNone)
    (h6 : data.byteAt 6 / 2 % 4 ≤ c.TxMode8k) :
    terrestrialTable c data =
      ({ terrestrialPrefix c data 8 with OtherFreq := decide (data.byteAt 6 % 2 ≠ 0) }, true) := by
  unfold terrestrialTable
  rw [if_neg (by omega), if_neg (by omega), if_neg (by omega), if_neg h4, if_neg h5,
    if_neg (by omega)]

/-- When one of the checks fails the table returns `ok = false`. -/
theorem terrestrialTable_of_invalid (c : DvbConsts) (data : ByteSlice)
    (h : 2 ≤ data.byteAt 4 / 32 ∨ data.byteAt 5 / 64 = 3 ∨
      c.Hierarchy4 < data.byteAt 5 / 8 % 8 ∨ codeRate c (data.byteAt 5 % 8) = c.FECNone ∨
      codeRate c (data.byteAt 6 / 32) = c.FECNone ∨ c.TxMode8k < data.byteAt 6 / 2 % 4) :
    ∃ v, terrestrialTable c data = (v, false) := by
  rcases hv : terrestrialTable c data with ⟨v, ok⟩
  cases ok with
  | false => exact ⟨v, rfl⟩
  | true =>
    obtain ⟨h1, h2, h3, h4, h5, h6, -⟩ := terrestrialTable_ok c data v hv
    rcases h with h | h | h | h | h | h
    · omega
    · exact absurd h h2
    · omega
    · exact absurd h h4
    · exact absurd h h5
    · omega

/-- C8. With the terrestrial delivery tag and a payload of at least 11 bytes: when the top
three bits of byte 4 are 0 a successful parse has `Bandwidth = 8000000`, when they are 1 a
successful parse has `Bandwidth = 7000000`, and when they are 2 or more the parser returns
`ok = false` whatever the other bytes are. -/
theorem ParseTerrestrial_bandwidth (c : DvbConsts) (tag : Byte) (d : Descriptor)
    (ht : d.Tag = tag) (hl : 11 ≤ d.Data.len) :
    (d.Data.byteAt 4 / 32 = 0 → ∀ v,
      ParseTerrestrialDeliverySystemDescriptor c tag d = some (v, true) →
        v.Bandwidth = 8000000) ∧
    (d.Data.byteAt 4 / 32 = 1 → ∀ v,
      ParseTerrestrialDeliverySystemDescriptor c tag d = some (v, true) →
        v.Bandwidth = 7000000) ∧
    (2 ≤ d.Data.byteAt 4 / 32 →
      ∃ v, ParseTerrestrialDeliverySystemDescriptor c tag d = some (v, false)) := by
  rw [ParseTerrestrial_eq_table c tag d ht hl]
  refine ⟨fun h0 v hv => ?_, fun h1 v hv => ?_, fun h2 => ?_⟩
  · obtain ⟨-, -, -, -, -, -, rfl⟩ := terrestrialTable_ok c d.Data v (Option.some.inj hv)
    simp [terrestrialPrefix, h0]
  · obtain ⟨-, -, -, -, -, -, rfl⟩ := terrestrialTable_ok c d.Data v (Option.some.inj hv)
    simp [terrestrialPrefix, h1]
  · obtain ⟨v, hv⟩ := terrestrialTable_of_invalid c d.Data (Or.inl h2)
    exact ⟨v, congrArg some hv⟩

/-- Witness of C8: a payload with bandwidth code 0 that is parsed successfully. -/
theorem ParseTerrestrial_bandwidth_witness :
    ∃ v, ParseTerrestrialDeliverySystemDescriptor linuxConsts 0x5A
        ⟨0x5A, ByteSlice.view [1, 2, 3, 4, 0x1F, 0x5B, 0x23, 0, 0, 0, 0] []⟩ = some (v, true) ∧
      v.Bandwidth = 8000000 :=
  ⟨{ Freq := 169090600, Bandwidth := 8000000, Constellation := 1, Hierarchy := 3,
     CodeRateHP := 5, CodeRateLP := 2, Guard := 0, TxMode := 1, OtherFreq := true },
   by decide,
   (ParseTerrestrial_bandwidth linuxConsts 0x5A
      ⟨0x5A, ByteSlice.view [1, 2, 3, 4, 0x1F, 0x5B, 0x23, 0, 0, 0, 0] []⟩ rfl
      (by decide)).1 (by decide) _ (by decide)⟩

/-- C9. With the terrestrial delivery tag and a payload of at least 11 bytes, and the
library numbering FEC 1/2, 2/3, 3/4 as 1, 2, 3. `codeRate` maps the codes 0, 1, 2 to the
code rates 1, 2, 3 and the codes 3, 4 to `dvb.FEC56`, `dvb.FEC78`, that is the codes 0 to 4
to FEC 1/2, 2/3, 3/4, 5/6, 7/8, and the codes 5 and above to `dvb.FECNone`. Once the fields
before the code rates have passed their checks, the returned `CodeRateHP` is `codeRate`
of the low three bits of byte 5, and when that is not `dvb.FECNone` the returned
`CodeRateLP` is `codeRate` of the top three bits of byte 6. On success both codes are at
most 4 and both fields hold their table entries. A code of 5, 6 or 7 in either field makes
the parser return `ok = false`. When all the other fields pass their checks, the parse
succeeds exactly when neither code rate is `dvb.FECNone`. -/
theorem ParseTerrestrial_code_rates (c : DvbConsts) (h12 : c.FEC12 = 1) (h23 : c.FEC23 = 2)
    (h34 : c.FEC34 = 3) (tag : Byte) (d : Descriptor) (ht : d.Tag = tag)
    (hl : 11 ≤ d.Data.len) :
    (codeRate c 0 = 1 ∧ codeRate c 1 = 2 ∧ codeRate c 2 = 3 ∧
      codeRate c 3 = c.FEC56 ∧ codeRate c 4 = c.FEC78) ∧
    (∀ code, code ≤ 4 → fecOfCode c code = some (codeRate c code)) ∧
    (∀ code, 5 ≤ code → codeRate c code = c.FECNone) ∧
    (d.Data.byteAt 4 / 32 ≤ 1 → d.Data.byteAt 5 / 64 ≤ 2 →
      d.Data.byteAt 5 / 8 % 8 ≤ c.Hierarchy4 →
      ∃ v ok, ParseTerrestrialDeliverySystemDescriptor c tag d = some (v, ok) ∧
        v.CodeRateHP = codeRate c (d.Data.byteAt 5 % 8) ∧
        (codeRate c (d.Data.byteAt 5 % 8) ≠ c.FECNone →
          v.CodeRateLP = codeRate c (d.Data.byteAt 6 / 32))) ∧
    (∀ v, ParseTerrestrialDeliverySystemDescriptor c tag d = some (v, true) →
      d.Data.byteAt 5 % 8 ≤ 4 ∧ d.Data.byteAt 6 / 32 ≤ 4 ∧
      fecOfCode c (d.Data.byteAt 5 % 8) = some v.CodeRateHP ∧
      fecOfCode c (d.Data.byteAt 6 / 32) = some v.CodeRateLP) ∧
    ((5 ≤ d.Data.byteAt 5 % 8 ∨ 5 ≤ d.Data.byteAt 6 / 32) →
      ∃ v, ParseTerrestrialDeliverySystemDescriptor c tag d = some (v, false)) ∧
    (d.Data.byteAt 4 / 32 ≤ 1 → d.Data.byteAt 5 / 64 ≤ 2 →
      d.Data.byteAt 5 / 8 % 8 ≤ c.Hierarchy4 → d.Data.byteAt 6 / 2 % 4 ≤ c.TxMode8k →
      ((∃ v, ParseTerrestrialDeliverySystemDescriptor c tag d = some (v, true)) ↔
        (codeRate c (d.Data.byteAt 5 % 8) ≠ c.FECNone ∧
          codeRate c (d.Data.byteAt 6 / 32) ≠ c.FECNone))) := by
  rw [ParseTerrestrial_eq_table c tag d ht hl]
  refine ⟨⟨rfl, rfl, rfl, rfl, rfl⟩, codeRate_of_le_four c h12 h23 h34,
    codeRate_of_five_le c, ?_, ?_, ?_, ?_⟩
  · intro h1 h2 h3
    have hn1 : ¬ 2 ≤ d.Data.byteAt 4 / 32 := by omega
    have hn2 : ¬ d.Data.byteAt 5 / 64 = 3 := by omega
    have hn3 : ¬ d.Data.byteAt 5 / 8 % 8 > c.Hierarchy4 := by omega
    unfold terrestrialTable
    rw [if_neg hn1, if_neg hn2, if_neg hn3]
    by_cases h4 : codeRate c (d.Data.byteAt 5 % 8) = c.FECNone
    · rw [if_pos h4]
      exact ⟨_, _, rfl, rfl, fun hne => absurd h4 hne⟩
    rw [if_neg h4]
    by_cases h5 : codeRate c (d.Data.byteAt 6 / 32) = c.FECNone
    · rw [if_pos h5]
      exact ⟨_, _, rfl, rfl, fun _ => rfl⟩
    rw [if_neg h5]
    by_cases h6 : d.Data.byteAt 6 / 2 % 4 > c.TxMode8k
    · rw [if_pos h6]
      exact ⟨_, _, rfl, rfl, fun _ => rfl⟩
    · rw [if_neg h6]
      exact ⟨_, _, rfl, rfl, fun _ => rfl⟩
  · intro v hv
    obtain ⟨-, -, -, h4, h5, -, rfl⟩ := terrestrialTable_ok c d.Data v (Option.some.inj hv)
    have hhp : d.Data.byteAt 5 % 8 ≤ 4 := by
      by_contra hc
      exact h4 (codeRate_of_five_le c _ (by omega))
    have hlp : d.Data.byteAt 6 / 32 ≤ 4 := by
      by_contra hc
      exact h5 (codeRate_of_five_le c _ (by omega))
    exact ⟨hhp, hlp, codeRate_of_le_four c h12 h23 h34 _ hhp,
      codeRate_of_le_four c h12 h23 h34 _ hlp⟩
  · intro h
    have hbad : codeRate c (d.Data.byteAt 5 % 8) = c.FECNone ∨
        codeRate c (d.Data.byteAt 6 / 32) = c.FECNone :=
      h.imp (codeRate_of_five_le c _) (codeRate_of_five_le c _)
    obtain ⟨v, hv⟩ := terrestrialTable_of_invalid c d.Data
      (hbad.elim (fun h => Or.inr (Or.inr (Or.inr (Or.inl h))))
        (fun h => Or.inr (Or.inr (Or.inr (Or.inr (Or.inl h))))))
    exact ⟨v, congrArg some hv⟩
  · intro h1 h2 h3 h6
    constructor
    · rintro ⟨v, hv⟩
      obtain ⟨-, -, -, h4, h5, -, -⟩ := terrestrialTable_ok c d.Data v (Option.some.inj hv)
      exact ⟨h4, h5⟩
    · rintro ⟨h4, h5⟩
      exact ⟨_, congrArg some (terrestrialTable_of_valid c d.Data h1 h2 h3 h4 h5 h6)⟩

/-- Witness of C9, in the Linux numbering: with code 0 in byte 5 and code 4 in byte 6 the
parse succeeds with FEC 1/2 and FEC 7/8; with codes 2 and 3 it succeeds with FEC 3/4 and
FEC 5/6. -/
theorem ParseTerrestrial_code_rates_witness :
    (∃ v, ParseTerrestrialDeliverySystemDescriptor linuxConsts 0x5A
        ⟨0x5A, ByteSlice.view [1, 2, 3, 4, 0x20, 0x58, 0x83, 0, 0, 0, 0] []⟩ = some (v, true) ∧
      some linuxConsts.FEC12 = some v.CodeRateHP ∧
      some linuxConsts.FEC78 = some v.CodeRateLP) ∧
    (∃ v, ParseTerrestrialDeliverySystemDescriptor linuxConsts 0x5A
        ⟨0x5A, ByteSlice.view [1, 2, 3, 4, 0x20, 0x5A, 0x63, 0, 0, 0, 0] []⟩ = some (v, true) ∧
      some linuxConsts.FEC34 = some v.CodeRateHP ∧
      some linuxConsts.FEC56 = some v.CodeRateLP) :=
  ⟨⟨{ Freq := 169090600, Bandwidth := 7000000, Constellation := 1, Hierarchy := 3,
      CodeRateHP := 1, CodeRateLP := 7, Guard := 0, TxMode := 1, OtherFreq := true },
    by decide,
    ((ParseTerrestrial_code_rates linuxConsts rfl rfl rfl 0x5A
      ⟨0x5A, ByteSlice.view [1, 2, 3, 4, 0x20, 0x58, 0x83, 0, 0, 0, 0] []⟩ rfl
      (by decide)).2.2.2.2.1 _ (by decide)).2.2⟩,
   ⟨{ Freq := 169090600, Bandwidth := 7000000, Constellation := 1, Hierarchy := 3,
      CodeRateHP := 3, CodeRateLP := 5, Guard := 0, TxMode := 1, OtherFreq := true },
    by decide,
    ((ParseTerrestrial_code_rates linuxConsts rfl rfl rfl 0x5A
      ⟨0x5A, ByteSlice.view [1, 2, 3, 4, 0x20, 0x5A, 0x63, 0, 0, 0, 0] []⟩ rfl
      (by decide)).2.2.2.2.1 _ (by decide)).2.2⟩⟩

/-- When the other fields pass their checks, the parse succeeds exactly when the
hierarchy code is not above `dvb.Hierarchy4`, whatever the value of that constant. -/
theorem terrestrial_accepts_iff_hierarchy_le (c : DvbConsts) (tag : Byte) (d : Descriptor)
    (ht : d.Tag = tag) (hl : 11 ≤ d.Data.len) (hv : otherFieldsValid c d.Data) :
    (∃ v, ParseTerrestrialDeliverySystemDescriptor c tag d = some (v, true)) ↔
      d.Data.byteAt 5 / 8 % 8 ≤ c.Hierarchy4 := by
  obtain ⟨h1, h2, h4, h5, h6⟩ := hv
  rw [ParseTerrestrial_eq_table c tag d ht hl]
  constructor
  · rintro ⟨v, hv⟩
    exact (terrestrialTable_ok c d.Data v (Option.some.inj hv)).2.2.1
  · intro h
    exact ⟨_, congrArg some (terrestrialTable_of_valid c d.Data h1 h2 h h4 h5 h6)⟩

/-- C10, counterexample. In the Linux numbering, where `dvb.Hierarchy4` is 3, a payload
whose other fields pass their checks and whose hierarchy code is 4 is rejected. -/
theorem terrestrial_hierarchy_code_4_rejected :
    otherFieldsValid linuxConsts
      (ByteSlice.view [1, 2, 3, 4, 0x20, 0x63, 0x23, 0, 0, 0, 0] []) ∧
    ((ByteSlice.view [1, 2, 3, 4, 0x20, 0x63, 0x23, 0, 0, 0, 0] []).byteAt 5 >>> 3) &&& 7 = 4 ∧
    ParseTerrestrialDeliverySystemDescriptor linuxConsts 0x5A
        ⟨0x5A, ByteSlice.view [1, 2, 3, 4, 0x20, 0x63, 0x23, 0, 0, 0, 0] []⟩ =
      some ({ Freq := 169090600, Bandwidth := 7000000, Constellation := 1, Hierarchy := 4,
              CodeRateHP := 0, CodeRateLP := 0, Guard := 0, TxMode := 0,
              OtherFreq := false }, false) := by
  decide

/-- C10, amended. With the terrestrial delivery tag and a payload of at least 11 bytes
whose other fields pass their checks, for every value of `dvb.Hierarchy4`: the hierarchy
code `h = (byte 5 >> 3) & 7` is accepted with `Hierarchy = h` when `h ≤ dvb.Hierarchy4`,
and the parser returns `ok = false` when `h > dvb.Hierarchy4`. -/
theorem ParseTerrestrial_hierarchy (c : DvbConsts) (tag : Byte)
    (d : Descriptor) (ht : d.Tag = tag) (hl : 11 ≤ d.Data.len)
    (hv : otherFieldsValid c d.Data) :
    ((d.Data.byteAt 5 >>> 3) &&& 7 ≤ c.Hierarchy4 →
      ∃ v, ParseTerrestrialDeliverySystemDescriptor c tag d = some (v, true) ∧
        v.Hierarchy = (d.Data.byteAt 5 >>> 3) &&& 7) ∧
    (c.Hierarchy4 < (d.Data.byteAt 5 >>> 3) &&& 7 →
      ∃ v, ParseTerrestrialDeliverySystemDescriptor c tag d = some (v, false)) := by
  obtain ⟨h1, h2, h4, h5, h6⟩ := hv
  have hbits : (d.Data.byteAt 5 >>> 3) &&& 7 = d.Data.byteAt 5 / 8 % 8 := by
    rw [byte_and_7, byte_shiftRight]
    rfl
  rw [ParseTerrestrial_eq_table c tag d ht hl, hbits]
  refine ⟨fun h => ?_, fun h => ?_⟩
  · refine ⟨_, congrArg some
      (terrestrialTable_of_valid c d.Data h1 h2 h h4 h5 h6), ?_⟩
    simp [terrestrialPrefix]
  · obtain ⟨v, hv⟩ := terrestrialTable_of_invalid c d.Data
      (Or.inr (Or.inr (Or.inl h)))
    exact ⟨v, congrArg some hv⟩

/-- Witness of C10, amended: in the Linux numbering the hierarchy code 3 is accepted. -/
theorem ParseTerrestrial_hierarchy_witness :
    otherFieldsValid linuxConsts
      (ByteSlice.view [1, 2, 3, 4, 0x20, 0x5B, 0x23, 0, 0, 0, 0] []) ∧
    ∃ v, ParseTerrestrialDeliverySystemDescriptor linuxConsts 0x5A
        ⟨0x5A, ByteSlice.view [1, 2, 3, 4, 0x20, 0x5B, 0x23, 0, 0, 0, 0] []⟩ = some (v, true) ∧
      v.Hierarchy = 3 :=
  ⟨by decide,
   (ParseTerrestrial_hierarchy linuxConsts 0x5A
      ⟨0x5A, ByteSlice.view [1, 2, 3, 4, 0x20, 0x5B, 0x23, 0, 0, 0, 0] []⟩ rfl
      (by decide) (by decide)).1 (by decide)⟩

/-! ### Terrestrial delivery system descriptor: transmission mode and frequency -/

/-- C11, counterexample. In the Linux numbering, where `dvb.TxMode8k` is 1, a payload
whose other fields pass their checks and whose transmission mode code is 2 is rejected. -/
theorem terrestrial_txmode_code_2_rejected :
    fieldsBeforeTxModeValid linuxConsts
      (ByteSlice.view [1, 2, 3, 4, 0x20, 0x5B, 0x25, 0, 0, 0, 0] []) ∧
    ((ByteSlice.view [1, 2, 3, 4, 0x20, 0x5B, 0x25, 0, 0, 0, 0] []).byteAt 6 >>> 1) &&& 3 = 2 ∧
    ParseTerrestrialDeliverySystemDescriptor linuxConsts 0x5A
        ⟨0x5A, ByteSlice.view [1, 2, 3, 4, 0x20, 0x5B, 0x25, 0, 0, 0, 0] []⟩ =
      some ({ Freq := 169090600, Bandwidth := 7000000, Constellation := 1, Hierarchy := 3,
              CodeRateHP := 5, CodeRateLP := 2, Guard := 0, TxMode := 2,
              OtherFreq := false }, false) := by
  decide

/-- C11, amended. With the terrestrial delivery tag and a payload of at least 11 bytes
whose other fields pass their checks, for every value of `dvb.TxMode8k`: the transmission
mode code `m = (byte 6 >> 1) & 3` is accepted with `TxMode = m` when `m ≤ dvb.TxMode8k`,
whatever the guard interval code `(byte 6 >> 3) & 3` is (it is stored in `Guard`), and the
parser returns `ok = false` when `m > dvb.TxMode8k`. -/
theorem ParseTerrestrial_txmode (c : DvbConsts) (tag : Byte)
    (d : Descriptor) (ht : d.Tag = tag) (hl : 11 ≤ d.Data.len)
    (hv : fieldsBeforeTxModeValid c d.Data) :
    ((d.Data.byteAt 6 >>> 1) &&& 3 ≤ c.TxMode8k →
      ∃ v, ParseTerrestrialDeliverySystemDescriptor c tag d = some (v, true) ∧
        v.TxMode = (d.Data.byteAt 6 >>> 1) &&& 3 ∧
        v.Guard = (d.Data.byteAt 6 >>> 3) &&& 3) ∧
    (c.TxMode8k < (d.Data.byteAt 6 >>> 1) &&& 3 →
      ∃ v, ParseTerrestrialDeliverySystemDescriptor c tag d = some (v, false)) := by
  obtain ⟨h1, h2, h3, h4, h5⟩ := hv
  have hm : (d.Data.byteAt 6 >>> 1) &&& 3 = d.Data.byteAt 6 / 2 % 4 := by
    rw [byte_and_3, byte_shiftRight]
    rfl
  have hg : (d.Data.byteAt 6 >>> 3) &&& 3 = d.Data.byteAt 6 / 8 % 4 := by
    rw [byte_and_3, byte_shiftRight]
    rfl
  rw [ParseTerrestrial_eq_table c tag d ht hl, hm, hg]
  refine ⟨fun h => ?_, fun h => ?_⟩
  · refine ⟨_, congrArg some
      (terrestrialTable_of_valid c d.Data h1 h2 h3 h4 h5 h), ?_, ?_⟩
    · simp [terrestrialPrefix]
    · simp [terrestrialPrefix]
  · obtain ⟨v, hv⟩ := terrestrialTable_of_invalid c d.Data
      (Or.inr (Or.inr (Or.inr (Or.inr (Or.inr h)))))
    exact ⟨v, congrArg some hv⟩

/-- Witness of C11, amended: in the Linux numbering the transmission mode code 1 is
accepted with the guard interval code 3. -/
theorem ParseTerrestrial_txmode_witness :
    fieldsBeforeTxModeValid linuxConsts
      (ByteSlice.view [1, 2, 3, 4, 0x20, 0x5B, 0x3B, 0, 0, 0, 0] []) ∧
    ∃ v, ParseTerrestrialDeliverySystemDescriptor linuxConsts 0x5A
        ⟨0x5A, ByteSlice.view [1, 2, 3, 4, 0x20, 0x5B, 0x3B, 0, 0, 0, 0] []⟩ = some (v, true) ∧
      v.TxMode = 1 ∧ v.Guard = 3 :=
  ⟨by decide,
   (ParseTerrestrial_txmode linuxConsts 0x5A
      ⟨0x5A, ByteSlice.view [1, 2, 3, 4, 0x20, 0x5B, 0x3B, 0, 0, 0, 0] []⟩ rfl
      (by decide) (by decide)).1 (by decide)⟩

/-- When the other fields pass their checks, the parse succeeds exactly when the
transmission mode code is not above `dvb.TxMode8k`, whatever the value of that constant. -/
theorem terrestrial_accepts_iff_txmode_le (c : DvbConsts) (tag : Byte) (d : Descriptor)
    (ht : d.Tag = tag) (hl : 11 ≤ d.Data.len) (hv : fieldsBeforeTxModeValid c d.Data) :
    (∃ v, ParseTerrestrialDeliverySystemDescriptor c tag d = some (v, true)) ↔
      d.Data.byteAt 6 / 2 % 4 ≤ c.TxMode8k := by
  obtain ⟨h1, h2, h3, h4, h5⟩ := hv
  rw [ParseTerrestrial_eq_table c tag d ht hl]
  constructor
  · rintro ⟨v, hv⟩
    exact (terrestrialTable_ok c d.Data v (Option.some.inj hv)).2.2.2.2.2.1
  · intro h
    exact ⟨_, congrArg some (terrestrialTable_of_valid c d.Data h1 h2 h3 h4 h5 h)⟩

/-- A successful parse has the matching tag and a payload of at least 11 bytes. -/
theorem ParseTerrestrial_ok_shape (c : DvbConsts) (tag : Byte) (d : Descriptor)
    (v : TerrestrialDeliverySystemDescriptor)
    (h : ParseTerrestrialDeliverySystemDescriptor c tag d = some (v, true)) :
    d.Tag = tag ∧ 11 ≤ d.Data.len := by
  unfold ParseTerrestrialDeliverySystemDescriptor at h
  by_cases ht : d.Tag ≠ tag
  · rw [if_pos ht] at h
    exact absurd (Prod.mk.inj (Option.some.inj h)).2 Bool.false_ne_true
  · rw [if_neg ht] at h
    refine ⟨not_not.mp ht, ?_⟩
    by_contra hl
    have hl : d.Data.len < 11 := by omega
    simp only [if_pos hl] at h
    exact absurd (Prod.mk.inj (Option.some.inj h)).2 Bool.false_ne_true

/-- C12. On every payload `b` on which `ParseTerrestrialDeliverySystemDescriptor`
succeeds, `Freq = 10 * (2^24*b[0] + 2^16*b[1] + 2^8*b[2] + b[3])` as a natural number (the
64-bit product does not wrap), so `Freq` is a multiple of 10 and at most 42949672950. -/
theorem ParseTerrestrial_freq (c : DvbConsts) (tag : Byte) (d : Descriptor)
    (v : TerrestrialDeliverySystemDescriptor)
    (h : ParseTerrestrialDeliverySystemDescriptor c tag d = some (v, true)) :
    v.Freq = 10 * (2 ^ 24 * d.Data.byteAt 0 + 2 ^ 16 * d.Data.byteAt 1 +
      2 ^ 8 * d.Data.byteAt 2 + d.Data.byteAt 3) ∧
    v.Freq % 10 = 0 ∧ v.Freq ≤ 42949672950 := by
  obtain ⟨ht, hl⟩ := ParseTerrestrial_ok_shape c tag d v h
  rw [ParseTerrestrial_eq_table c tag d ht hl] at h
  obtain ⟨-, -, -, -, -, -, rfl⟩ := terrestrialTable_ok c d.Data v (Option.some.inj h)
  have h0 := ByteSlice.byteAt_lt d.Data 0
  have h1 := ByteSlice.byteAt_lt d.Data 1
  have h2 := ByteSlice.byteAt_lt d.Data 2
  have h3 := ByteSlice.byteAt_lt d.Data 3
  have hf : (terrestrialPrefix c d.Data 8).Freq = 10 * (2 ^ 24 * d.Data.byteAt 0 +
      2 ^ 16 * d.Data.byteAt 1 + 2 ^ 8 * d.Data.byteAt 2 + d.Data.byteAt 3) := rfl
  show (terrestrialPrefix c d.Data 8).Freq = _ ∧ (terrestrialPrefix c d.Data 8).Freq % 10 = 0 ∧
    (terrestrialPrefix c d.Data 8).Freq ≤ _
  rw [hf]
  refine ⟨rfl, ?_, ?_⟩ <;> omega

/-- Witness of C12: the all-ones frequency bytes give the largest value, 42949672950. -/
theorem ParseTerrestrial_freq_witness :
    ∃ v, ParseTerrestrialDeliverySystemDescriptor linuxConsts 0x5A
        ⟨0x5A, ByteSlice.view [0xFF, 0xFF, 0xFF, 0xFF, 0x20, 0x5B, 0x23, 0, 0, 0, 0] []⟩ =
          some (v, true) ∧ v.Freq = 42949672950 :=
  ⟨{ Freq := 42949672950, Bandwidth := 7000000, Constellation := 1, Hierarchy := 3,
     CodeRateHP := 5, CodeRateLP := 2, Guard := 0, TxMode := 1, OtherFreq := true },
   by decide,
   (ParseTerrestrial_freq linuxConsts 0x5A
      ⟨0x5A, ByteSlice.view [0xFF, 0xFF, 0xFF, 0xFF, 0x20, 0x5B, 0x23, 0, 0, 0, 0] []⟩ _
      (by decide)).1.trans (by decide)⟩

/-! ### Repeating-group iterators -/

theorem decodeU24_slice (data : ByteSlice) (h : 3 ≤ data.len) :
    (data.slice 0 3).bind decodeU24 =
      some (2 ^ 16 * data.byteAt 0 + 2 ^ 8 * data.byteAt 1 + data.byteAt 2) := by
  cases data with
  | nil => simp [ByteSlice.len, ByteSlice.toList] at h
  | view e sp =>
    match e, h with
    | a :: b :: c :: rest, _ =>
      rw [ByteSlice.slice_view _ _ 0 3 (by omega) (by simp)]
      simp [decodeU24, ByteSlice.index_view, ByteSlice.byteAt, ByteSlice.toList]

/-- A view of fewer than three bytes is popped into the zero record and the nil slice. -/
theorem ServiceListPop_short (d : ServiceListDescriptor) (h : d.len < 3) :
    ServiceListDescriptor.Pop d = some (0, 0, ByteSlice.nil) := by
  unfold ServiceListDescriptor.Pop
  rw [if_pos h]

/-- A view of at least three bytes is popped into its first record and the view on the
bytes after it, on the same backing array. -/
theorem ServiceListPop_view (a b t : Byte) (rest sp : List Byte) :
    ServiceListDescriptor.Pop (ByteSlice.view (a :: b :: t :: rest) sp) =
      some (256 * a.val + b.val, t, ByteSlice.view rest sp) := by
  have hd := decodeU16_slice (ByteSlice.view (a :: b :: t :: rest) sp) 0
    (by simp [ByteSlice.len_view])
  obtain ⟨d02, hs, hdec⟩ := Option.bind_eq_some.mp hd
  unfold ServiceListDescriptor.Pop
  rw [if_neg (by simp [ByteSlice.len_view]), hs, Option.some_bind, hdec, Option.some_bind,
    ByteSlice.index_view, ByteSlice.sliceFrom_view _ _ 3 (by simp)]
  simp [bigEndian16, ByteSlice.byteAt, ByteSlice.toList]

/-- A view of fewer than four bytes is popped into the zero record and the nil slice. -/
theorem ISO639LangPop_short (d : ISO639LangDescriptor) (h : d.len < 4) :
    ISO639LangDescriptor.Pop d = some (0, 0, ByteSlice.nil) := by
  unfold ISO639LangDescriptor.Pop
  rw [if_pos h]

/-- A view of at least four bytes is popped into its first record and the view on the
bytes after it, on the same backing array. -/
theorem ISO639LangPop_view (a b c t : Byte) (rest sp : List Byte) :
    ISO639LangDescriptor.Pop (ByteSlice.view (a :: b :: c :: t :: rest) sp) =
      some (2 ^ 16 * a.val + 2 ^ 8 * b.val + c.val, t, ByteSlice.view rest sp) := by
  have hd := decodeU24_slice (ByteSlice.view (a :: b :: c :: t :: rest) sp)
    (by simp [ByteSlice.len_view])
  obtain ⟨d03, hs, hdec⟩ := Option.bind_eq_some.mp hd
  unfold ISO639LangDescriptor.Pop
  rw [if_neg (by simp [ByteSlice.len_view]), hs, Option.some_bind, hdec, Option.some_bind,
    ByteSlice.index_view, ByteSlice.sliceFrom_view _ _ 4 (by simp)]
  simp [ByteSlice.byteAt, ByteSlice.toList]

/-- A slice with at least one byte is not the nil slice. -/
theorem ByteSlice.eq_view_of_len_pos (d : ByteSlice) (h : 0 < d.len) :
    ∃ e sp, d = ByteSlice.view e sp := by
  cases d with
  | nil => exact absurd h (by simp [ByteSlice.len, ByteSlice.toList])
  | view e sp => exact ⟨e, sp, rfl⟩

/-- C13. A service-list view `d` of at least 3 bytes is popped into `sid = 256*d[0] + d[1]`,
`typ = d[2]` and a non-nil remainder `rd` that is `d` without its first 3 bytes, so
`len(rd) = len(d) - 3` and `[sid >> 8, sid & 0xFF, typ]` followed by `rd` is `d` again. -/
theorem ServiceListPop_record (d : ServiceListDescriptor) (h : 3 ≤ d.len) :
    ∃ sid typ rd, ServiceListDescriptor.Pop d = some (sid, typ, rd) ∧
      sid = 256 * d.byteAt 0 + d.byteAt 1 ∧
      typ.val = d.byteAt 2 ∧
      rd.isNil = false ∧
      rd.toList = d.toList.drop 3 ∧
      rd.len = d.len - 3 ∧
      [sid >>> 8, sid &&& 0xFF, typ.val] ++ rd.toList.map Fin.val = d.toList.map Fin.val := by
  obtain ⟨e, sp, rfl⟩ := ByteSlice.eq_view_of_len_pos d (by omega)
  match e, h with
  | a :: b :: t :: rest, _ =>
    refine ⟨_, _, _, ServiceListPop_view a b t rest sp, rfl, rfl, rfl, rfl, ?_, ?_⟩
    · simp [ByteSlice.len_view]
    · have ha := a.isLt
      have hb := b.isLt
      have h1 : (256 * a.val + b.val) >>> 8 = a.val := by
        rw [Nat.shiftRight_eq_div_pow]
        omega
      have h2 : (256 * a.val + b.val) &&& 0xFF = b.val := by
        rw [show (0xFF : Nat) = 2 ^ 8 - 1 from rfl, Nat.and_pow_two_sub_one_eq_mod]
        omega
      rw [h1, h2]
      simp [ByteSlice.toList_view]

/-- Witness of C13: the view `[0x01, 0x02, 0x03, 0x04]` is popped into the record
`(0x0102, 0x03)` and the one-byte remainder `[0x04]`. -/
theorem ServiceListPop_record_witness :
    ∃ sid typ rd, ServiceListDescriptor.Pop (ByteSlice.view [0x01, 0x02, 0x03, 0x04] []) =
        some (sid, typ, rd) ∧ sid = 0x0102 ∧ typ.val = 3 ∧ rd.isNil = false ∧
      rd.toList = [0x04] :=
  match ServiceListPop_record (ByteSlice.view [0x01, 0x02, 0x03, 0x04] []) (by decide) with
  | ⟨sid, typ, rd, hp, hs, ht, hn, hl, _, _⟩ =>
    ⟨sid, typ, rd, hp, hs.trans (by decide), ht.trans (by decide), hn, hl.trans (by decide)⟩

/-- C14. An ISO-639 language view `d` of at least 4 bytes is popped into
`lc = 2^16*d[0] + 2^8*d[1] + d[2]`, which is below `2^24`, `at = d[3]` and a non-nil
remainder that is `d` without its first 4 bytes; and when `d[3] ≥ 4` the audio type is
rendered as `reserved`. -/
theorem ISO639LangPop_record (d : ISO639LangDescriptor) (h : 4 ≤ d.len) :
    ∃ lc audioType rd, ISO639LangDescriptor.Pop d = some (lc, audioType, rd) ∧
      lc = 2 ^ 16 * d.byteAt 0 + 2 ^ 8 * d.byteAt 1 + d.byteAt 2 ∧
      lc < 2 ^ 24 ∧
      audioType.val = d.byteAt 3 ∧
      rd.isNil = false ∧
      rd.toList = d.toList.drop 4 ∧
      (4 ≤ d.byteAt 3 → AudioType.String audioType = some "reserved") := by
  obtain ⟨e, sp, rfl⟩ := ByteSlice.eq_view_of_len_pos d (by omega)
  match e, h with
  | a :: b :: c :: t :: rest, _ =>
    refine ⟨_, _, _, ISO639LangPop_view a b c t rest sp, rfl, ?_, rfl, rfl, rfl, ?_⟩
    · have ha := a.isLt
      have hb := b.isLt
      have hc := c.isLt
      omega
    · intro h4
      have h4 : 4 ≤ t.val := h4
      unfold AudioType.String
      rw [if_pos (show t.val > VisualImpairedCommentaryAudio.val from h4)]

/-- Witness of C14: the view `pol` followed by audio type 4. -/
theorem ISO639LangPop_record_witness :
    ∃ lc audioType rd, ISO639LangDescriptor.Pop (ByteSlice.view [0x70, 0x6F, 0x6C, 4] []) =
        some (lc, audioType, rd) ∧ lc = 0x706F6C ∧ rd.isNil = false ∧
      AudioType.String audioType = some "reserved" :=
  match ISO639LangPop_record (ByteSlice.view [0x70, 0x6F, 0x6C, 4] []) (by decide) with
  | ⟨lc, audioType, rd, hp, hl, _, _, hn, _, hr⟩ =>
    ⟨lc, audioType, rd, hp, hl.trans (by decide), hn, hr (by decide)⟩

/-- The service-list `Pop` always returns, and its remainder is nil exactly for a view of
fewer than 3 bytes. -/
theorem ServiceListPop_cases (d : ServiceListDescriptor) :
    (d.len < 3 ∧ ServiceListDescriptor.Pop d = some (0, 0, ByteSlice.nil)) ∨
    (3 ≤ d.len ∧ ∃ sid typ rd, ServiceListDescriptor.Pop d = some (sid, typ, rd) ∧
      rd.isNil = false ∧ rd.len = d.len - 3) := by
  by_cases h : d.len < 3
  · exact Or.inl ⟨h, ServiceListPop_short d h⟩
  · right
    obtain ⟨e, sp, rfl⟩ := ByteSlice.eq_view_of_len_pos d (by omega)
    have h3 : 3 ≤ (ByteSlice.view e sp).len := by omega
    match e, h3 with
    | a :: b :: t :: rest, _ =>
      exact ⟨by simp [ByteSlice.len_view], _, _, _, ServiceListPop_view a b t rest sp, rfl,
        by simp [ByteSlice.len_view]⟩

/-- The ISO-639 language `Pop` always returns, and its remainder is nil exactly for a view
of fewer than 4 bytes. -/
theorem ISO639LangPop_cases (d : ISO639LangDescriptor) :
    (d.len < 4 ∧ ISO639LangDescriptor.Pop d = some (0, 0, ByteSlice.nil)) ∨
    (4 ≤ d.len ∧ ∃ lc audioType rd, ISO639LangDescriptor.Pop d = some (lc, audioType, rd) ∧
      rd.isNil = false ∧ rd.len = d.len - 4) := by
  by_cases h : d.len < 4
  · exact Or.inl ⟨h, ISO639LangPop_short d h⟩
  · right
    obtain ⟨e, sp, rfl⟩ := ByteSlice.eq_view_of_len_pos d (by omega)
    have h4 : 4 ≤ (ByteSlice.view e sp).len := by omega
    match e, h4 with
    | a :: b :: c :: t :: rest, _ =>
      exact ⟨by simp [ByteSlice.len_view], _, _, _, ISO639LangPop_view a b c t rest sp, rfl,
        by simp [ByteSlice.len_view]⟩

/-- C15. A view shorter than one record (3 bytes for the service list, 4 for the ISO-639
languages) is popped into the zero record and the nil remainder, whatever its bytes are
and whether it is empty or not; `Pop` returns on every view, and its remainder is nil only
for a view shorter than one record. -/
theorem Pop_short_view (d : ByteSlice) :
    (d.len < 3 → ServiceListDescriptor.Pop d = some (0, 0, ByteSlice.nil)) ∧
    (∃ r, ServiceListDescriptor.Pop d = some r ∧ (r.2.2.isNil = true ↔ d.len < 3)) ∧
    (d.len < 4 → ISO639LangDescriptor.Pop d = some (0, 0, ByteSlice.nil)) ∧
    (∃ r, ISO639LangDescriptor.Pop d = some r ∧ (r.2.2.isNil = true ↔ d.len < 4)) := by
  refine ⟨ServiceListPop_short d, ?_, ISO639LangPop_short d, ?_⟩
  · rcases ServiceListPop_cases d with ⟨hl, hp⟩ | ⟨hl, sid, typ, rd, hp, hn, -⟩
    · exact ⟨_, hp, by simp [ByteSlice.isNil, hl]⟩
    · refine ⟨_, hp, ?_⟩
      simp only [hn]
      constructor
      · intro hc
        exact absurd hc (by simp)
      · intro hc
        omega
  · rcases ISO639LangPop_cases d with ⟨hl, hp⟩ | ⟨hl, lc, audioType, rd, hp, hn, -⟩
    · exact ⟨_, hp, by simp [ByteSlice.isNil, hl]⟩
    · refine ⟨_, hp, ?_⟩
      simp only [hn]
      constructor
      · intro hc
        exact absurd hc (by simp)
      · intro hc
        omega

/-- Witness of C15: the truncated view `[0x01, 0x02]` and the empty view give the same
result, the zero record with the nil remainder. -/
theorem Pop_short_view_witness :
    ServiceListDescriptor.Pop (ByteSlice.view [0x01, 0x02] []) = some (0, 0, ByteSlice.nil) ∧
    ServiceListDescriptor.Pop (ByteSlice.view [] []) = some (0, 0, ByteSlice.nil) ∧
    ISO639LangDescriptor.Pop (ByteSlice.view [0x70, 0x6F, 0x6C] []) =
      some (0, 0, ByteSlice.nil) :=
  ⟨(Pop_short_view (ByteSlice.view [0x01, 0x02] [])).1 (by decide),
   (Pop_short_view (ByteSlice.view [] [])).1 (by decide),
   (Pop_short_view (ByteSlice.view [0x70, 0x6F, 0x6C] [])).2.2.1 (by decide)⟩

/-- C17, counterexample. The 4-byte service-list view `[1, 2, 3, 4]` is popped
successfully into a non-nil remainder of one byte, and the 5-byte ISO-639 language view
`[1, 2, 3, 4, 5]` likewise: the length of the remainder is not a multiple of the record
width. -/
theorem Pop_remainder_not_multiple :
    ServiceListDescriptor.Pop (ByteSlice.view [1, 2, 3, 4] []) =
      some (258, 3, ByteSlice.view [4] []) ∧
    (ByteSlice.view [4] []).isNil = false ∧ (ByteSlice.view [4] []).len % 3 ≠ 0 ∧
    ISO639LangDescriptor.Pop (ByteSlice.view [1, 2, 3, 4, 5] []) =
      some (66051, 4, ByteSlice.view [5] []) ∧
    (ByteSlice.view [5] []).isNil = false ∧ (ByteSlice.view [5] []).len % 4 ≠ 0 := by
  decide

/-- C17, amended. `ServiceListDescriptor.Pop` either fails (nil remainder and zero record),
which it does exactly on a view of fewer than 3 bytes, or returns a non-nil remainder of
length `len(d) - 3`, whose length has the same residue modulo 3 as `len(d)`: it is a
multiple of 3 exactly when `len(d)` is. Likewise `ISO639LangDescriptor.Pop` with 4. -/
theorem Pop_remainder_residue (d : ByteSlice) :
    ((d.len < 3 ∧ ServiceListDescriptor.Pop d = some (0, 0, ByteSlice.nil)) ∨
     (3 ≤ d.len ∧ ∃ sid typ rd, ServiceListDescriptor.Pop d = some (sid, typ, rd) ∧
        rd.isNil = false ∧ rd.len = d.len - 3 ∧ rd.len % 3 = d.len % 3)) ∧
    ((d.len < 4 ∧ ISO639LangDescriptor.Pop d = some (0, 0, ByteSlice.nil)) ∨
     (4 ≤ d.len ∧ ∃ lc audioType rd, ISO639LangDescriptor.Pop d = some (lc, audioType, rd) ∧
        rd.isNil = false ∧ rd.len = d.len - 4 ∧ rd.len % 4 = d.len % 4)) := by
  constructor
  · rcases ServiceListPop_cases d with h | ⟨hl, sid, typ, rd, hp, hn, hlen⟩
    · exact Or.inl h
    · exact Or.inr ⟨hl, sid, typ, rd, hp, hn, hlen, by omega⟩
  · rcases ISO639LangPop_cases d with h | ⟨hl, lc, audioType, rd, hp, hn, hlen⟩
    · exact Or.inl h
    · exact Or.inr ⟨hl, lc, audioType, rd, hp, hn, hlen, by omega⟩

theorem ByteSlice.byteAt_view_add (e sp : List Byte) (pre : List Byte) (i : Nat) :
    (ByteSlice.view (pre ++ e) sp).byteAt (pre.length + i) = (ByteSlice.view e sp).byteAt i := by
  unfold ByteSlice.byteAt ByteSlice.toList
  rw [List.getD_eq_getElem?_getD, List.getD_eq_getElem?_getD,
    List.getElem?_append_right (Nat.le_add_right _ _), Nat.add_sub_cancel_left]

/-- With enough fuel the service-list loop returns one record for each whole group of 3
bytes, decoded from the bytes of that group, and stops on a view that holds the bytes left
over. -/
theorem serviceListLoop_spec (fuel : Nat) :
    ∀ d : ServiceListDescriptor, d.len / 3 < fuel →
      ∃ recs last, serviceListLoop fuel d = some (recs, last) ∧
        recs.length = d.len / 3 ∧
        (∀ i, i < d.len / 3 → (recs[i]?).map (fun r => (r.1, r.2.val)) =
          some (256 * d.byteAt (3 * i) + d.byteAt (3 * i + 1), d.byteAt (3 * i + 2))) ∧
        last.isNil = d.isNil ∧ last.len = d.len % 3 := by
  induction fuel with
  | zero => intro d h; omega
  | succ fuel ih =>
    intro d hf
    by_cases hs : d.len < 3
    · refine ⟨[], d, ?_, ?_, ?_, rfl, ?_⟩
      · simp [serviceListLoop, ServiceListPop_short d hs, ByteSlice.isNil]
      · simp; omega
      · intro i hi; omega
      · omega
    · obtain ⟨e, sp, rfl⟩ := ByteSlice.eq_view_of_len_pos d (by omega)
      have h3 : 3 ≤ (ByteSlice.view e sp).len := by omega
      match e, h3, hf with
      | a :: b :: t :: rest, _, hf =>
        have hlen : (ByteSlice.view (a :: b :: t :: rest) sp).len = rest.length + 3 := by
          simp [ByteSlice.len_view]
        rw [hlen] at hf ⊢
        have hdiv : (rest.length + 3) / 3 = rest.length / 3 + 1 := by omega
        obtain ⟨recs, last, hloop, hcount, hrec, hnil, hlast⟩ :=
          ih (ByteSlice.view rest sp) (by rw [ByteSlice.len_view]; omega)
        rw [ByteSlice.len_view] at hcount hrec hlast
        refine ⟨(256 * a.val + b.val, t) :: recs, last, ?_, ?_, ?_, ?_, ?_⟩
        · simp [serviceListLoop, ServiceListPop_view, ByteSlice.isNil, hloop]
        · simp [hcount, hdiv]
        · intro i hi
          cases i with
          | zero => simp [ByteSlice.byteAt, ByteSlice.toList]
          | succ j =>
            have := hrec j (by omega)
            rw [List.getElem?_cons_succ, this]
            have e1 := ByteSlice.byteAt_view_add rest sp [a, b, t] (3 * j)
            have e2 := ByteSlice.byteAt_view_add rest sp [a, b, t] (3 * j + 1)
            have e3 := ByteSlice.byteAt_view_add rest sp [a, b, t] (3 * j + 2)
            simp only [List.length_cons, List.length_nil, List.cons_append,
              List.nil_append] at e1 e2 e3
            rw [show 3 * (j + 1) = 0 + 1 + 1 + 1 + 3 * j by omega,
              show 0 + 1 + 1 + 1 + 3 * j + 1 = 0 + 1 + 1 + 1 + (3 * j + 1) by omega,
              show 0 + 1 + 1 + 1 + 3 * j + 2 = 0 + 1 + 1 + 1 + (3 * j + 2) by omega,
              e1, e2, e3]
        · exact hnil
        · rw [hlast]; omega

/-- The service-list loop needs fuel for `n/3 + 1` calls of `Pop`: with less it runs out. -/
theorem serviceListLoop_out_of_fuel (fuel : Nat) :
    ∀ d : ServiceListDescriptor, fuel ≤ d.len / 3 → serviceListLoop fuel d = none := by
  induction fuel with
  | zero => intro d _; rfl
  | succ fuel ih =>
    intro d hf
    obtain ⟨e, sp, rfl⟩ := ByteSlice.eq_view_of_len_pos d (by omega)
    have h3 : 3 ≤ (ByteSlice.view e sp).len := by omega
    match e, h3, hf with
    | a :: b :: t :: rest, _, hf =>
      have hlen : (ByteSlice.view (a :: b :: t :: rest) sp).len = rest.length + 3 := by
        simp [ByteSlice.len_view]
      rw [hlen] at hf
      have := ih (ByteSlice.view rest sp) (by rw [ByteSlice.len_view]; omega)
      simp [serviceListLoop, ServiceListPop_view, ByteSlice.isNil, this]

/-- The ISO-639 language loop needs fuel for `n/4 + 1` calls of `Pop`: with less it runs
out. -/
theorem iso639LangLoop_out_of_fuel (fuel : Nat) :
    ∀ d : ISO639LangDescriptor, fuel ≤ d.len / 4 → iso639LangLoop fuel d = none := by
  induction fuel with
  | zero => intro d _; rfl
  | succ fuel ih =>
    intro d hf
    obtain ⟨e, sp, rfl⟩ := ByteSlice.eq_view_of_len_pos d (by omega)
    have h4 : 4 ≤ (ByteSlice.view e sp).len := by omega
    match e, h4, hf with
    | a :: b :: c :: t :: rest, _, hf =>
      have hlen : (ByteSlice.view (a :: b :: c :: t :: rest) sp).len = rest.length + 4 := by
        simp [ByteSlice.len_view]
      rw [hlen] at hf
      have := ih (ByteSlice.view rest sp) (by rw [ByteSlice.len_view]; omega)
      simp [iso639LangLoop, ISO639LangPop_view, ByteSlice.isNil, this]

/-- With enough fuel the ISO-639 language loop returns one record for each whole group of
4 bytes, decoded from the bytes of that group, and stops on a view that holds the bytes
left over. -/
theorem iso639LangLoop_spec (fuel : Nat) :
    ∀ d : ISO639LangDescriptor, d.len / 4 < fuel →
      ∃ recs last, iso639LangLoop fuel d = some (recs, last) ∧
        recs.length = d.len / 4 ∧
        (∀ i, i < d.len / 4 → (recs[i]?).map (fun r => (r.1, r.2.val)) =
          some (2 ^ 16 * d.byteAt (4 * i) + 2 ^ 8 * d.byteAt (4 * i + 1) +
            d.byteAt (4 * i + 2), d.byteAt (4 * i + 3))) ∧
        last.isNil = d.isNil ∧ last.len = d.len % 4 := by
  induction fuel with
  | zero => intro d h; omega
  | succ fuel ih =>
    intro d hf
    by_cases hs : d.len < 4
    · refine ⟨[], d, ?_, ?_, ?_, rfl, ?_⟩
      · simp [iso639LangLoop, ISO639LangPop_short d hs, ByteSlice.isNil]
      · simp; omega
      · intro i hi; omega
      · omega
    · obtain ⟨e, sp, rfl⟩ := ByteSlice.eq_view_of_len_pos d (by omega)
      have h4 : 4 ≤ (ByteSlice.view e sp).len := by omega
      match e, h4, hf with
      | a :: b :: c :: t :: rest, _, hf =>
        have hlen : (ByteSlice.view (a :: b :: c :: t :: rest) sp).len = rest.length + 4 := by
          simp [ByteSlice.len_view]
        rw [hlen] at hf ⊢
        have hdiv : (rest.length + 4) / 4 = rest.length / 4 + 1 := by omega
        obtain ⟨recs, last, hloop, hcount, hrec, hnil, hlast⟩ :=
          ih (ByteSlice.view rest sp) (by rw [ByteSlice.len_view]; omega)
        rw [ByteSlice.len_view] at hcount hrec hlast
        refine ⟨(2 ^ 16 * a.val + 2 ^ 8 * b.val + c.val, t) :: recs, last, ?_, ?_, ?_, ?_, ?_⟩
        · simp [iso639LangLoop, ISO639LangPop_view, ByteSlice.isNil, hloop]
        · simp [hcount, hdiv]
        · intro i hi
          cases i with
          | zero => simp [ByteSlice.byteAt, ByteSlice.toList]
          | succ j =>
            have := hrec j (by omega)
            rw [List.getElem?_cons_succ, this]
            have e1 := ByteSlice.byteAt_view_add rest sp [a, b, c, t] (4 * j)
            have e2 := ByteSlice.byteAt_view_add rest sp [a, b, c, t] (4 * j + 1)
            have e3 := ByteSlice.byteAt_view_add rest sp [a, b, c, t] (4 * j + 2)
            have e4 := ByteSlice.byteAt_view_add rest sp [a, b, c, t] (4 * j + 3)
            simp only [List.length_cons, List.length_nil, List.cons_append,
              List.nil_append] at e1 e2 e3 e4
            rw [show 4 * (j + 1) = 0 + 1 + 1 + 1 + 1 + 4 * j by omega,
              show 0 + 1 + 1 + 1 + 1 + 4 * j + 1 = 0 + 1 + 1 + 1 + 1 + (4 * j + 1) by omega,
              show 0 + 1 + 1 + 1 + 1 + 4 * j + 2 = 0 + 1 + 1 + 1 + 1 + (4 * j + 2) by omega,
              show 0 + 1 + 1 + 1 + 1 + 4 * j + 3 = 0 + 1 + 1 + 1 + 1 + (4 * j + 3) by omega,
              e1, e2, e3, e4]
        · exact hnil
        · rw [hlast]; omega

/-- A slice with at least one byte has `isNil = false`. -/
theorem ByteSlice.isNil_of_len_pos (d : ByteSlice) (h : 0 < d.len) : d.isNil = false := by
  obtain ⟨e, sp, rfl⟩ := ByteSlice.eq_view_of_len_pos d h
  rfl

/-- C16. For a service-list view `d` of length `n`, the loop that pops, stops at the first
nil remainder and otherwise goes on with the remainder, returns when it is given fuel for
`n/3 + 1` calls of `Pop`: it records exactly `n/3` successful pops, the `i`-th record
being decoded from the bytes `3i`, `3i+1`, `3i+2` of `d`, and the view on which it stops is
popped into the nil remainder; when `n` is a positive multiple of 3 that view is the
non-nil zero-length remainder of the last successful pop. The same holds for the ISO-639
language loop with groups of 4 bytes. -/
theorem Pop_loop_terminates (d : ByteSlice) (fuel : Nat) :
    (d.len / 3 < fuel →
      ∃ recs last, serviceListLoop fuel d = some (recs, last) ∧
        recs.length = d.len / 3 ∧
        (∀ i, i < d.len / 3 → (recs[i]?).map (fun r => (r.1, r.2.val)) =
          some (256 * d.byteAt (3 * i) + d.byteAt (3 * i + 1), d.byteAt (3 * i + 2))) ∧
        ServiceListDescriptor.Pop last = some (0, 0, ByteSlice.nil) ∧
        (0 < d.len → d.len % 3 = 0 → last.isNil = false ∧ last.len = 0)) ∧
    (d.len / 4 < fuel →
      ∃ recs last, iso639LangLoop fuel d = some (recs, last) ∧
        recs.length = d.len / 4 ∧
        (∀ i, i < d.len / 4 → (recs[i]?).map (fun r => (r.1, r.2.val)) =
          some (2 ^ 16 * d.byteAt (4 * i) + 2 ^ 8 * d.byteAt (4 * i + 1) +
            d.byteAt (4 * i + 2), d.byteAt (4 * i + 3))) ∧
        ISO639LangDescriptor.Pop last = some (0, 0, ByteSlice.nil) ∧
        (0 < d.len → d.len % 4 = 0 → last.isNil = false ∧ last.len = 0)) := by
  constructor
  · intro hf
    obtain ⟨recs, last, hloop, hcount, hrec, hnil, hlast⟩ := serviceListLoop_spec fuel d hf
    refine ⟨recs, last, hloop, hcount, hrec, ServiceListPop_short last (by omega), ?_⟩
    intro hpos hmod
    exact ⟨hnil.trans (ByteSlice.isNil_of_len_pos d hpos), by omega⟩
  · intro hf
    obtain ⟨recs, last, hloop, hcount, hrec, hnil, hlast⟩ := iso639LangLoop_spec fuel d hf
    refine ⟨recs, last, hloop, hcount, hrec, ISO639LangPop_short last (by omega), ?_⟩
    intro hpos hmod
    exact ⟨hnil.trans (ByteSlice.isNil_of_len_pos d hpos), by omega⟩

/-- Witness of C16: a 3-byte view yields one record and a zero-length non-nil remainder,
on which the next pop fails. -/
theorem Pop_loop_terminates_witness :
    serviceListLoop 2 (ByteSlice.view [0x01, 0x02, 0x03] []) =
      some ([(0x0102, 0x03)], ByteSlice.view [] []) ∧
    ∃ recs last, serviceListLoop 2 (ByteSlice.view [0x01, 0x02, 0x03] []) = some (recs, last) ∧
      recs.length = 1 ∧
      ServiceListDescriptor.Pop last = some (0, 0, ByteSlice.nil) ∧
      last.isNil = false ∧ last.len = 0 :=
  ⟨by decide,
   match (Pop_loop_terminates (ByteSlice.view [0x01, 0x02, 0x03] []) 2).1 (by decide) with
   | ⟨recs, last, hloop, hcount, _, hpop, hlast⟩ =>
     ⟨recs, last, hloop, hcount, hpop, hlast (by decide) (by decide)⟩⟩
/-! ### Name tables -/

/-- C18. For every byte `t`, `AudioType(t).String()` returns (no table access is out of
range) `undefined` for 0, `clean effects` for 1, `hearing impaired` for 2,
`visual impaired commentary` for 3 and `reserved` for every value from 4 to 255. -/
theorem AudioType_String_table (t : AudioType) :
    AudioType.String t = some
      (if t.val = 0 then "undefined"
       else if t.val = 1 then "clean effects"
       else if t.val = 2 then "hearing impaired"
       else if t.val = 3 then "visual impaired commentary"
       else "reserved") := by
  revert t
  set_option maxRecDepth 100000 in decide

/-- C19. For every byte `t`, `ServiceType(t).String()` returns (no access to the 27-entry
table is out of range): for each named constant its own label, for the unassigned codes
0x00, 0x09, 0x0d, 0x12 to 0x15, 0x1c to 0x7f and 0xff the label `reserved`, and for every
code from 0x80 to 0xfe the label `user defined`; every byte is in one of the three bands. -/
theorem ServiceType_String_bands (t : ServiceType) :
    (ServiceType.String t).isSome = true ∧
    (∀ p ∈ namedServiceTypes, t.val = p.1 → ServiceType.String t = some p.2) ∧
    (unassignedServiceType t.val = true → ServiceType.String t = some "reserved") ∧
    (0x80 ≤ t.val ∧ t.val ≤ 0xfe → ServiceType.String t = some "user defined") ∧
    ((∃ p ∈ namedServiceTypes, t.val = p.1) ∨ unassignedServiceType t.val = true ∨
      (0x80 ≤ t.val ∧ t.val ≤ 0xfe)) := by
  revert t
  set_option maxRecDepth 100000 in decide

/-- Witness of C19: one code of each band, `0x01` and `0x1b` among the named ones. -/
theorem ServiceType_String_bands_witness :
    ServiceType.String 0x01 = some "digital television" ∧
    ServiceType.String 0x1b = some "advanced codec HD NVOD reference" ∧
    ServiceType.String 0x09 = some "reserved" ∧
    ServiceType.String 0x80 = some "user defined" :=
  ⟨(ServiceType_String_bands 0x01).2.1 (0x01, "digital television") (by decide) rfl,
   (ServiceType_String_bands 0x1b).2.1 (0x1b, "advanced codec HD NVOD reference")
     (by decide) rfl,
   (ServiceType_String_bands 0x09).2.2.1 (by decide),
   (ServiceType_String_bands 0x80).2.2.2.1 (by decide)⟩
/-! ### Terrestrial delivery system descriptor: what the result depends on -/

/-- C20. Two descriptors with the terrestrial delivery tag and payloads of at least 11
bytes that agree on bytes 0 to 3, on the top three bits of byte 4 and on bytes 5 and 6 give
the same `(value, ok)` result, whatever the low five bits of byte 4, the bytes from 7 on,
the lengths and the capacities of the payloads are. -/
theorem ParseTerrestrial_depends_only_on (c : DvbConsts) (tag : Byte) (d1 d2 : Descriptor)
    (ht1 : d1.Tag = tag) (ht2 : d2.Tag = tag)
    (hl1 : 11 ≤ d1.Data.len) (hl2 : 11 ≤ d2.Data.len)
    (h0 : d1.Data.byteAt 0 = d2.Data.byteAt 0) (h1 : d1.Data.byteAt 1 = d2.Data.byteAt 1)
    (h2 : d1.Data.byteAt 2 = d2.Data.byteAt 2) (h3 : d1.Data.byteAt 3 = d2.Data.byteAt 3)
    (h4 : d1.Data.byteAt 4 / 32 = d2.Data.byteAt 4 / 32)
    (h5 : d1.Data.byteAt 5 = d2.Data.byteAt 5) (h6 : d1.Data.byteAt 6 = d2.Data.byteAt 6) :
    ParseTerrestrialDeliverySystemDescriptor c tag d1 =
      ParseTerrestrialDeliverySystemDescriptor c tag d2 := by
  rw [ParseTerrestrial_eq_table c tag d1 ht1 hl1, ParseTerrestrial_eq_table c tag d2 ht2 hl2]
  have hbe : bigEndian32 d1.Data = bigEndian32 d2.Data := by
    unfold bigEndian32
    rw [h0, h1, h2, h3]
  have hp : ∀ k, terrestrialPrefix c d1.Data k = terrestrialPrefix c d2.Data k := by
    intro k
    unfold terrestrialPrefix
    rw [hbe, h4, h5, h6]
  unfold terrestrialTable
  rw [hp 1, hp 2, hp 4, hp 5, hp 6, hp 8, h4, h5, h6]

/-- Witness of C20: two payloads of 11 and 13 bytes that differ in the low five bits of
byte 4 and in the bytes from 7 on. -/
theorem ParseTerrestrial_depends_only_on_witness :
    ParseTerrestrialDeliverySystemDescriptor linuxConsts 0x5A
        ⟨0x5A, ByteSlice.view [1, 2, 3, 4, 0x20, 0x5B, 0x23, 0, 0, 0, 0] []⟩ =
      ParseTerrestrialDeliverySystemDescriptor linuxConsts 0x5A
        ⟨0x5A, ByteSlice.view [1, 2, 3, 4, 0x3F, 0x5B, 0x23, 9, 8, 7, 6, 5, 4] [1, 2]⟩ :=
  ParseTerrestrial_depends_only_on linuxConsts 0x5A
    ⟨0x5A, ByteSlice.view [1, 2, 3, 4, 0x20, 0x5B, 0x23, 0, 0, 0, 0] []⟩
    ⟨0x5A, ByteSlice.view [1, 2, 3, 4, 0x3F, 0x5B, 0x23, 9, 8, 7, 6, 5, 4] [1, 2]⟩
    rfl rfl (by decide) (by decide) (by decide) (by decide) (by decide) (by decide)
    (by decide) (by decide) (by decide)

end Psi
